import Mathlib

/-!
# asyncevent: a signal/callback dispatcher

A shallow embedding of `asyncevent.c` / `asyncevent.h` (and of the demo
callbacks of `main.c`), followed by theorems about binding, emitting,
draining and teardown.

Conventions of the embedding

* C pointers to functions and to opaque arguments are natural numbers,
  `0` being `NULL`.
* A handle pointer is an `Option asyncevent_t`: `none` is `NULL`, `some h`
  points at the structure `h`.
* `int` values are `Int`; the code only compares them with constants.
* The intrusive list `hlist` is the list of its nodes, front first.  Every
  node carries the address of its embedded `list_head`, which is what the
  cursor variables `pos` and `n` of the traversal hold; the sentinel
  `&handle->hlist` is the cursor value `none`.
* `map` is the storage designated by `handle->map[sig]`, as a function of
  the index `sig`: the 1024 slots of the table for `0 <= sig < 1024` and,
  for `sig = 1024`, the first words of the member `lock`, which follows the
  table in `struct asyncevent_t`.  The range check lets no other index
  through.
* The code is read sequentially: one thread runs the call, and the
  callbacks it invokes may call `async_event_emit` on the same handle.  A
  call that waits on the condition variable, or on a mutex whose word is
  not zero, ends as `Status.blocked`: nobody else will wake it.
* Loops that callbacks can keep going take a `fuel` bound on their number
  of iterations; `Status.unfinished` says the bound was reached.
* `list.h` is not among the source files. Its list primitives and its macro
  `list_for_each_safe` are modelled; the comments of their definitions say
  how they are read.
-/

namespace AsyncEvent

/-! ## Data model (asyncevent.h) -/

/-- Address of a heap node (of the `list_head` embedded in it). -/
abbrev Addr := Nat

/-- Value of a `void (*)(void*)`; `0` is `NULL`. -/
abbrev FuncPtr := Nat

/-- Value of a `void*` argument. -/
abbrev VoidPtr := Nat

/-- Signal/callback slot: `struct eventinfo_t`. -/
structure eventinfo_t where
  func : FuncPtr
  sig : Int
deriving DecidableEq

/-- Queue node: `struct eventlist_t`; `list` is the address of the node. -/
structure eventlist_t where
  args : VoidPtr
  sig : Int
  list : Addr
deriving DecidableEq

/-- Handle: `struct asyncevent_t`. The member `lock` comes right after
`map[1024]`, so that `map 1024` is the storage of its first words; `lock_free`
reads it. The condition variable carries no data of the sequential
reading. -/
structure asyncevent_t where
  hlist : List eventlist_t
  map : Int → eventinfo_t

/-- The configuration switch of asyncevent.h. -/
def USE_MUTI_THREAD : Nat := 1

/-- The mutex `handle->lock` is not held: its first word, which is the
storage of `handle->map[1024].func`, is zero. `pthread_mutex_lock` takes such
a mutex at once and `pthread_mutex_unlock` leaves it so again; on a mutex
whose word is not zero `pthread_mutex_lock` waits, in the sequential reading
for ever. -/
def lock_free (h : asyncevent_t) : Prop := (h.map 1024).func = 0

instance (h : asyncevent_t) : Decidable (lock_free h) := by
  unfold lock_free
  infer_instance

/-- How a call ended: it returned a value, it waits for ever (on the condition
variable with nothing to do, or on the mutex), it called a null pointer or
followed a cursor that designates no linked node, or the fuel of the model ran
out while the loop was still going. -/
inductive Status where
  | returned (ret : Int)
  | blocked
  | fault
  | unfinished
deriving DecidableEq

/-! ## The allocator -/

/-- Allocator state: `brk` is the next fresh node address, `room` the number
of nodes that can still be allocated. -/
structure Heap where
  brk : Addr
  room : Nat
deriving DecidableEq

/-- The call `malloc(sizeof(eventlist_t))`: `none` is `NULL`. -/
def malloc (m : Heap) : Option Addr × Heap :=
  if m.room = 0 then (none, m) else (some m.brk, { brk := m.brk + 1, room := m.room - 1 })

/-- The call `free(node)`. -/
def free (_node : Addr) (m : Heap) : Heap :=
  { brk := m.brk, room := m.room + 1 }

/-! ## The list primitives -/

/-- Modelled from the spec: list.h is not among the source files. The queue
is "an intrusive doubly-linked sequence" with a sentinel head "supporting
insertion at either end"; `list_add` inserts the node right after the
sentinel, that is "at the front". -/
def list_add (node : eventlist_t) (head : List eventlist_t) : List eventlist_t :=
  node :: head

/-- Modelled from the spec: list.h is not among the source files.
`list_add_tail` inserts the node right before the sentinel: it is
"appended at the back". -/
def list_add_tail (node : eventlist_t) (head : List eventlist_t) : List eventlist_t :=
  head ++ [node]

/-- Modelled from the spec: list.h is not among the source files. `list_del`
unlinks the node at address `entry`; the other nodes keep their order. -/
def list_del (entry : Addr) : List eventlist_t → List eventlist_t
  | [] => []
  | x :: xs => if x.list = entry then xs else x :: list_del entry xs

/-- Modelled from the spec: list.h is not among the source files.
`list_empty` tells whether the sentinel is linked to itself. -/
def list_empty (head : List eventlist_t) : Bool :=
  head.isEmpty

/-- Modelled from the spec: list.h is not among the source files.
`list_entry(pos, eventlist_t, list)`: the node whose `list` member is at
address `pos` (`none` when no linked node is there). -/
def list_entry (pos : Addr) : List eventlist_t → Option eventlist_t
  | [] => none
  | x :: xs => if x.list = pos then some x else list_entry pos xs

/-- Address of the first node, or the sentinel: `head->next`. -/
def list_first (head : List eventlist_t) : Option Addr :=
  match head with
  | [] => none
  | x :: _ => some x.list

/-- The successor of the node at address `a`: `pos->next` for a node (the
sentinel when the node is the last one; an address that designates no linked
node is given no successor, and the loops stop with `Status.fault` on such a
cursor). -/
def list_after (a : Addr) : List eventlist_t → Option Addr
  | [] => none
  | x :: xs => if x.list = a then list_first xs else list_after a xs

/-- Modelled from the spec: list.h is not among the source files.
`pos->next` for a cursor `pos` of the circular list: the sentinel (`none`)
is followed by the first node, the last node by the sentinel. -/
def list_next (head : List eventlist_t) (pos : Option Addr) : Option Addr :=
  match pos with
  | none => list_first head
  | some a => list_after a head

/-! ## asyncevent.c -/

/-- The function `async_event_bind`. -/
def async_event_bind (handle : Option asyncevent_t) (sig : Int) (func : FuncPtr) :
    Int × Option asyncevent_t :=
  match handle with
  | none => (-1, none)
  | some h =>
    if func = 0 then (-1, some h)
    else if sig < 0 ∨ sig > 1024 then (-2, some h)
    else if (h.map sig).func ≠ 0 then (-3, some h)
    else (0, some { h with
      map := fun i => if i = sig then { func := func, sig := sig } else h.map i })

/-- The function `async_event_emit`. The first component tells how the call
ended: with a return value, or waiting in `pthread_mutex_lock`, the node
allocated and not linked. -/
def async_event_emit (handle : Option asyncevent_t) (priority sig : Int) (args : VoidPtr)
    (heap : Heap) : Status × Option asyncevent_t × Heap :=
  match handle with
  | none => (Status.returned (-1), none, heap)
  | some h =>
    if sig < 0 ∨ sig > 1024 then (Status.returned (-2), some h, heap)
    else if (h.map sig).func = 0 then (Status.returned (-3), some h, heap)
    else
      match malloc heap with
      | (none, heap1) => (Status.returned (-1), some h, heap1)
      | (some a, heap1) =>
        let node : eventlist_t := { args := args, sig := sig, list := a }
        if USE_MUTI_THREAD ≠ 0 ∧ ¬ lock_free h then (Status.blocked, some h, heap1)
        else if priority ≠ 0 then
          (Status.returned 0, some { h with hlist := list_add node h.hlist }, heap1)
        else
          (Status.returned 0, some { h with hlist := list_add_tail node h.hlist }, heap1)

/-- One `async_event_emit(handle, priority, sig, args)` statement of a
callback. -/
structure EmitCall where
  priority : Int
  sig : Int
  args : VoidPtr
deriving DecidableEq

/-- The application's callbacks as the dispatcher sees them: for a function
pointer and the argument it is called with, the emit calls the function
makes on the handle, in order. -/
abbrev Program := FuncPtr → VoidPtr → List EmitCall

/-- One callback invocation `func(node->args)` made by the dispatcher. -/
structure Call where
  func : FuncPtr
  node : eventlist_t
deriving DecidableEq

/-- State of a running `async_event_process` call: the handle's structure,
the allocator, the callback invocations made so far and the nodes linked
into the queue so far by the callbacks. -/
structure World where
  handle : asyncevent_t
  heap : Heap
  calls : List Call
  emitted : List eventlist_t

/-- One `async_event_emit` call on the handle, made by a callback or by a
producer; a node that the call links is recorded in `emitted`. -/
def emit_call (c : EmitCall) (w : World) : World :=
  match async_event_emit (some w.handle) c.priority c.sig c.args w.heap with
  | (ret, some h, m) =>
    { handle := h, heap := m, calls := w.calls,
      emitted := if ret = Status.returned 0
        then w.emitted ++ [{ args := c.args, sig := c.sig, list := w.heap.brk }]
        else w.emitted }
  | (_, none, m) => { w with heap := m }

/-- A callback body: its emit statements, in order. -/
def run_emits : List EmitCall → World → World
  | [], w => w
  | c :: cs, w => run_emits cs (emit_call c w)

/-- The indirect call `handle->map[sig].func(node->args)`. -/
def call_func (prog : Program) (func : FuncPtr) (node : eventlist_t) (w : World) : World :=
  run_emits (prog func node.args) { w with calls := w.calls ++ [{ func := func, node := node }] }

/-- Modelled from the spec: the macro `list_for_each_safe` of list.h, which is
not among the source files, in the loop
`list_for_each_safe(pos, n, &handle->hlist)` of `async_event_process`. The
spec has no words for the macro itself; it is read as the traversal that its
name and the two cursors of asyncevent.c (`struct list_head *pos, *n;`) say,
the body being free to unlink and to free the node of `pos`: `pos` is the
node of this iteration, `n` its successor as read before the body; after the
body `pos = n` and `n = pos->next`, and the loop ends when `pos` is the
sentinel. The body is the one of asyncevent.c: it takes the mutex to unlink
the node and releases it before the callback runs. The sentences of the spec
on the drain describe another loop, which is `drain_by_recheck`. -/
def process_loop (prog : Program) : Nat → Option Addr → Option Addr → World → Status × World
  | 0, _, _, w => (Status.unfinished, w)
  | fuel + 1, pos, n, w =>
    match pos with
    | none => (Status.returned 0, w)
    | some p =>
      if USE_MUTI_THREAD ≠ 0 ∧ ¬ lock_free w.handle then (Status.blocked, w)
      else
      match list_entry p w.handle.hlist with
      | none => (Status.fault, w)
      | some node =>
        let w1 : World := { w with handle := { w.handle with hlist := list_del p w.handle.hlist } }
        let sig := node.sig
        let func := (w1.handle.map sig).func
        if func = 0 then (Status.fault, w1)
        else
          let w2 := call_func prog func node w1
          let w3 : World := { w2 with heap := free p w2.heap }
          process_loop prog fuel n (list_next w3.handle.hlist n) w3

/-- What one `async_event_process` call did. -/
structure Outcome where
  status : Status
  handle : Option asyncevent_t
  heap : Heap
  calls : List Call
  emitted : List eventlist_t

/-- The function `async_event_process`, run for at most `fuel` iterations of
its loop: it takes the mutex, waits on the condition variable while the queue
is empty, releases the mutex and drains. -/
def async_event_process (prog : Program) (fuel : Nat) (handle : Option asyncevent_t)
    (heap : Heap) : Outcome :=
  match handle with
  | none => { status := Status.returned (-1), handle := none, heap := heap,
              calls := [], emitted := [] }
  | some h =>
    if USE_MUTI_THREAD ≠ 0 ∧ ¬ lock_free h then
      { status := Status.blocked, handle := some h, heap := heap, calls := [], emitted := [] }
    else if USE_MUTI_THREAD ≠ 0 ∧ list_empty h.hlist = true then
      { status := Status.blocked, handle := some h, heap := heap, calls := [], emitted := [] }
    else
      let pos := list_next h.hlist none
      let n := list_next h.hlist pos
      let r := process_loop prog fuel pos n
        { handle := h, heap := heap, calls := [], emitted := [] }
      { status := r.1, handle := some r.2.handle, heap := r.2.heap,
        calls := r.2.calls, emitted := r.2.emitted }

/-- Modelled from the spec: the macro `list_for_each_safe` of list.h, which is
not among the source files, in the loop
`list_for_each_safe(pos, n, &handle->hlist)` of `async_event_destory`, read as
in `process_loop`; the mutex is taken once, before the loop. The last
component lists the nodes freed. -/
def destory_loop : Nat → Option Addr → Option Addr → List eventlist_t → Heap →
    List eventlist_t → Status × List eventlist_t × Heap × List eventlist_t
  | 0, _, _, hlist, heap, freed => (Status.unfinished, hlist, heap, freed)
  | fuel + 1, pos, n, hlist, heap, freed =>
    match pos with
    | none => (Status.returned 0, hlist, heap, freed)
    | some p =>
      match list_entry p hlist with
      | none => (Status.fault, hlist, heap, freed)
      | some node =>
        let hlist1 := list_del p hlist
        let heap1 := free p heap
        destory_loop fuel n (list_next hlist1 n) hlist1 heap1 (freed ++ [node])

/-- What one `async_event_destory` call did: `handle` is `none` once the
handle is freed, `queue` is what was still linked at that moment and `freed`
the nodes released, in order. -/
structure Teardown where
  status : Status
  handle : Option asyncevent_t
  queue : List eventlist_t
  heap : Heap
  freed : List eventlist_t
  calls : List Call

/-- The function `async_event_destory`, run for at most `fuel` iterations of
its loop, which it enters with the mutex taken. -/
def async_event_destory (fuel : Nat) (handle : Option asyncevent_t) (heap : Heap) : Teardown :=
  match handle with
  | none => { status := Status.returned (-1), handle := none, queue := [], heap := heap,
              freed := [], calls := [] }
  | some h =>
    if USE_MUTI_THREAD ≠ 0 ∧ ¬ lock_free h then
      { status := Status.blocked, handle := some h, queue := h.hlist, heap := heap,
        freed := [], calls := [] }
    else
    let pos := list_next h.hlist none
    let n := list_next h.hlist pos
    let r := destory_loop fuel pos n h.hlist heap []
    match r.1 with
    | Status.returned ret =>
      { status := Status.returned ret, handle := none, queue := r.2.1, heap := r.2.2.1,
        freed := r.2.2.2, calls := [] }
    | s =>
      { status := s, handle := some { h with hlist := r.2.1 }, queue := r.2.1, heap := r.2.2.1,
        freed := r.2.2.2, calls := [] }

/-! ## main.c -/

/-- Signal numbers of `enum SIG_TYPE`. -/
def CLICK : Int := 1

/-- Signal `MOVE` of `enum SIG_TYPE`. -/
def MOVE : Int := 2

/-- Signal `PRESS` of `enum SIG_TYPE`. -/
def PRESS : Int := 3

/-- Signal `RELEASE` of `enum SIG_TYPE`. -/
def RELEASE : Int := 4

/-- Address of `event_click_func`. -/
def event_click_func : FuncPtr := 101

/-- Address of `event_move_func`. -/
def event_move_func : FuncPtr := 102

/-- Address of `event_press_func`. -/
def event_press_func : FuncPtr := 103

/-- Address of `event_release_func`. -/
def event_release_func : FuncPtr := 104

/-- The callbacks of main.c: `event_click_func` emits MOVE, PRESS and
RELEASE with priority 1 and its own argument; the others only print. -/
def main_prog : Program := fun func args =>
  if func = event_click_func then
    [{ priority := 1, sig := MOVE, args := args },
     { priority := 1, sig := PRESS, args := args },
     { priority := 1, sig := RELEASE, args := args }]
  else []

/-! ## Vocabulary of the statements -/

/-- The range check of `async_event_bind` and `async_event_emit` lets the
signal through. -/
def sig_accepted (sig : Int) : Prop := ¬ (sig < 0 ∨ sig > 1024)

/-- The addresses of the nodes of a queue. -/
def addrs (l : List eventlist_t) : List Addr := l.map (fun x => x.list)

/-- The invocation the dispatcher makes for a node under a callback table. -/
def call_of (map : Int → eventinfo_t) (x : eventlist_t) : Call :=
  { func := (map x.sig).func, node := x }

/-- A handle and an allocator that fit together, as they do in every state
the interface can build: the queued nodes are distinct live allocations, and
each carries a signal whose slot holds a callback. -/
def Sound (h : asyncevent_t) (heap : Heap) : Prop :=
  (addrs h.hlist).Nodup ∧ (∀ x ∈ h.hlist, x.list < heap.brk) ∧
  (∀ x ∈ h.hlist, (h.map x.sig).func ≠ 0)

/-- One iteration of the loop of `async_event_process` on the node `x`:
unlink, call, free. -/
def body (prog : Program) (x : eventlist_t) (w : World) : World :=
  let w1 : World := { w with handle := { w.handle with hlist := list_del x.list w.handle.hlist } }
  let w2 := call_func prog (w1.handle.map x.sig).func x w1
  { w2 with heap := free x.list w2.heap }

/-- The cursor of the traversal sits on the first node of `after`, the nodes
of `before` are behind it, and the mutex is not held. -/
def Cursor (w : World) (before after : List eventlist_t) (pos n : Option Addr) : Prop :=
  w.handle.hlist = before ++ after ∧ Sound w.handle w.heap ∧
  pos = list_first after ∧ n = list_next w.handle.hlist pos ∧ lock_free w.handle

/-- The world `w2` comes from `w` by emit calls of a callback that linked the
nodes `F` at the front and the nodes `B` at the back. -/
def Grew (w w2 : World) (F B : List eventlist_t) : Prop :=
  w2.handle.hlist = F ++ w.handle.hlist ++ B ∧
  w2.handle.map = w.handle.map ∧
  w2.calls = w.calls ∧
  (∃ E, w2.emitted = w.emitted ++ E ∧ E.Perm (F ++ B)) ∧
  w.heap.brk ≤ w2.heap.brk ∧
  (∀ x ∈ F ++ B, w.heap.brk ≤ x.list ∧ x.list < w2.heap.brk ∧
    (w.handle.map x.sig).func ≠ 0) ∧
  (addrs (F ++ B)).Nodup

/-- A producer emits the signals of `es`, each with its argument, one after
the other with priority 0. -/
def emit_each (es : List (Int × VoidPtr)) (handle : Option asyncevent_t) (heap : Heap) :
    Option asyncevent_t × Heap :=
  match es with
  | [] => (handle, heap)
  | e :: rest =>
    emit_each rest (async_event_emit handle 0 e.1 e.2 heap).2.1
      (async_event_emit handle 0 e.1 e.2 heap).2.2

/-- The nodes that successive successful emits of `es` allocate from the
address `b` on. -/
def nodes_of (b : Addr) (es : List (Int × VoidPtr)) : List eventlist_t :=
  match es with
  | [] => []
  | e :: rest => { args := e.2, sig := e.1, list := b } :: nodes_of (b + 1) rest

/-- A handle with an empty queue and an empty callback table. -/
def blank_handle : asyncevent_t :=
  { hlist := [], map := fun _ => { func := 0, sig := 0 } }

/-- The handle of main.c after its four `async_event_bind` calls, started
from an empty table. -/
def main_handle : Option asyncevent_t :=
  (async_event_bind
    (async_event_bind
      (async_event_bind
        (async_event_bind (some blank_handle) CLICK event_click_func).2
        MOVE event_move_func).2
      PRESS event_press_func).2
    RELEASE event_release_func).2

/-- The structure `main_handle` points at. -/
def main_struct : asyncevent_t :=
  { hlist := [],
    map := fun i =>
      if i = RELEASE then { func := event_release_func, sig := RELEASE }
      else if i = PRESS then { func := event_press_func, sig := PRESS }
      else if i = MOVE then { func := event_move_func, sig := MOVE }
      else if i = CLICK then { func := event_click_func, sig := CLICK }
      else { func := 0, sig := 0 } }

/-- An allocator with room for eight nodes. -/
def main_heap : Heap := { brk := 1000, room := 8 }

/-- Callbacks that make no emit call. -/
def quiet_prog : Program := fun _ _ => []

/-- The scenario handle: CLICK bound to the callback 201 and MOVE to the
callback 202, then CLICK emitted with the argument 11 and MOVE with the
argument 12, both with priority 0, from `main_heap`. -/
def scenario_struct : asyncevent_t :=
  { hlist := [{ args := 11, sig := CLICK, list := 1000 }, { args := 12, sig := MOVE, list := 1001 }],
    map := fun i =>
      if i = MOVE then { func := 202, sig := MOVE }
      else if i = CLICK then { func := 201, sig := CLICK }
      else { func := 0, sig := 0 } }

/-- The allocator after the two emits of the scenario. -/
def scenario_heap : Heap := { brk := 1002, room := 6 }

instance (sig : Int) : Decidable (sig_accepted sig) := by
  unfold sig_accepted
  infer_instance

/-- The handle of main.c with one pending MOVE event. -/
def pending_struct : asyncevent_t :=
  { hlist := [{ args := 11, sig := MOVE, list := 999 }], map := main_struct.map }

/-- One call the application makes on the handle from outside a callback:
an emit or a drain (run for at most `fuel` iterations). -/
inductive Op where
  | emit (priority sig : Int) (args : VoidPtr)
  | process (fuel : Nat)

/-- The effect of one call on the history of the handle: `calls` collects
every callback invocation and `emitted` every node linked into the queue. -/
def apply_op (prog : Program) (w : World) : Op → World
  | Op.emit priority sig args =>
    emit_call { priority := priority, sig := sig, args := args } w
  | Op.process fuel =>
    match (async_event_process prog fuel (some w.handle) w.heap).handle with
    | some h =>
      { handle := h, heap := (async_event_process prog fuel (some w.handle) w.heap).heap,
        calls := w.calls ++ (async_event_process prog fuel (some w.handle) w.heap).calls,
        emitted := w.emitted ++ (async_event_process prog fuel (some w.handle) w.heap).emitted }
    | none => w

/-- A sequence of calls on the handle. -/
def run_ops (prog : Program) : List Op → World → World
  | [], w => w
  | op :: ops, w => run_ops prog ops (apply_op prog w op)

/-- The node an invocation was made for. -/
def dispatched (calls : List Call) : List eventlist_t := calls.map (fun c => c.node)

/-- Conservation of events in a history: the nodes dispatched so far together
with the nodes still queued are the nodes emitted so far, all distinct, and
every invocation went to the callback bound to the node's signal. -/
def Conserved (w : World) : Prop :=
  Sound w.handle w.heap ∧
  (dispatched w.calls ++ w.handle.hlist).Perm w.emitted ∧
  (addrs w.emitted).Nodup ∧
  (∀ y ∈ w.emitted, y.list < w.heap.brk) ∧
  (∀ c ∈ w.calls, c.func = (w.handle.map c.node.sig).func)

/-- The handle of main.c after `async_event_emit(handle, 0, CLICK, 7)`. -/
def clicked_struct : asyncevent_t :=
  { hlist := [{ args := 7, sig := CLICK, list := 1000 }], map := main_struct.map }

/-- The allocator after that emit. -/
def clicked_heap : Heap := { brk := 1001, room := 7 }

/-! ## asyncevent.c: the constructor -/

/-- Number of slots of the member `eventinfo_t map[1024]` of asyncevent.h. -/
def MAP_SLOTS : Nat := 1024

/-- The index `sig` designates a slot of the table `map[1024]`. -/
def in_table (sig : Int) : Prop := 0 ≤ sig ∧ sig < (MAP_SLOTS : Int)

instance (sig : Int) : Decidable (in_table sig) := by
  unfold in_table
  infer_instance

/-- The block that `malloc(sizeof(asyncevent_t))` hands out, with whatever it
holds before the constructor writes to it: the two pointers of the member
`hlist`, then the table. -/
structure RawBlock where
  hlist_next : Nat
  hlist_prev : Nat
  map : Int → eventinfo_t

/-- The value `sizeof(handle)` of `create_async_event`, counted in
pointer-sized words: `handle` is a pointer (`asyncevent_t *`). -/
def sizeof_handle : Nat := 1

/-- The call `memset(block, 0, n)`, with `n` counted in pointer-sized words:
words 0 and 1 are the two pointers of `hlist`, slot `i` of the table takes
the words `2 + 2 * i` (its `func`) and `2 + 2 * i + 1` (its `sig`). -/
def memset_zero (n : Nat) (b : RawBlock) : RawBlock :=
  { hlist_next := if 0 < n then 0 else b.hlist_next,
    hlist_prev := if 1 < n then 0 else b.hlist_prev,
    map := fun i =>
      { func := if 0 ≤ i ∧ 2 + 2 * i.toNat < n then 0 else (b.map i).func,
        sig := if 0 ≤ i ∧ 2 + 2 * i.toNat + 1 < n then 0 else (b.map i).sig } }

/-- The function `create_async_event`; `block` is the result of its `malloc`
call (`none` is `NULL`). After `memset(handle, 0, sizeof(handle))`,
`INIT_LIST_HEAD` links the sentinel to itself: the queue is empty; then
`pthread_mutex_init` clears the mutex, whose first words are the storage of
index 1024. -/
def create_async_event (block : Option RawBlock) : Option asyncevent_t :=
  match block with
  | none => none
  | some b =>
    some { hlist := [],
           map := fun i =>
             if USE_MUTI_THREAD ≠ 0 ∧ i = 1024 then { func := 0, sig := 0 }
             else (memset_zero sizeof_handle b).map i }

/-- A block of recycled memory: the word of `map[1].func` holds 77, all the
others are zero. -/
def dirty_block : RawBlock :=
  { hlist_next := 0, hlist_prev := 0,
    map := fun i => if i = 1 then { func := 77, sig := 0 } else { func := 0, sig := 0 } }

/-! ## More vocabulary -/

/-- Callbacks in which `event_click_func` emits CLICK again, with the given
priority and its own argument (the line commented out in main.c); the other
callbacks make no emit call. -/
def self_prog (priority : Int) : Program := fun func args =>
  if func = event_click_func then [{ priority := priority, sig := CLICK, args := args }]
  else []

/-- A producer makes the emit calls `cs` one after the other; the first
component lists the values returned. -/
def emit_all (cs : List EmitCall) (handle : Option asyncevent_t) (heap : Heap) :
    List Status × Option asyncevent_t × Heap :=
  match cs with
  | [] => ([], handle, heap)
  | c :: rest =>
    ((async_event_emit handle c.priority c.sig c.args heap).1 ::
        (emit_all rest (async_event_emit handle c.priority c.sig c.args heap).2.1
          (async_event_emit handle c.priority c.sig c.args heap).2.2).1,
      (emit_all rest (async_event_emit handle c.priority c.sig c.args heap).2.1
          (async_event_emit handle c.priority c.sig c.args heap).2.2).2)

/-- The emit calls `cs` paired with the nodes that they allocate when all of
them succeed, from the address `b` on. -/
def tagged (b : Addr) (cs : List EmitCall) : List (EmitCall × eventlist_t) :=
  match cs with
  | [] => []
  | c :: rest => (c, { args := c.args, sig := c.sig, list := b }) :: tagged (b + 1) rest

/-- The nodes emitted with a non-zero priority, most recent first. -/
def front_part (b : Addr) (cs : List EmitCall) : List eventlist_t :=
  (((tagged b cs).filter (fun t => t.1.priority ≠ 0)).map (fun t => t.2)).reverse

/-- The nodes emitted with priority 0, in emission order. -/
def back_part (b : Addr) (cs : List EmitCall) : List eventlist_t :=
  ((tagged b cs).filter (fun t => t.1.priority = 0)).map (fun t => t.2)

/-- One call of the interface on an existing handle. -/
inductive ApiCall where
  | bind (sig : Int) (func : FuncPtr)
  | emit (priority sig : Int) (args : VoidPtr)
  | process (fuel : Nat)

/-- The handle and the allocator after one call of the interface. -/
def api_step (prog : Program) (s : asyncevent_t × Heap) : ApiCall → asyncevent_t × Heap
  | ApiCall.bind sig func =>
    match (async_event_bind (some s.1) sig func).2 with
    | some h => (h, s.2)
    | none => s
  | ApiCall.emit priority sig args =>
    match (async_event_emit (some s.1) priority sig args s.2).2.1 with
    | some h => (h, (async_event_emit (some s.1) priority sig args s.2).2.2)
    | none => s
  | ApiCall.process fuel =>
    match (async_event_process prog fuel (some s.1) s.2).handle with
    | some h => (h, (async_event_process prog fuel (some s.1) s.2).heap)
    | none => s

/-- The handle and the allocator after a sequence of calls of the interface. -/
def api_run (prog : Program) : List ApiCall → asyncevent_t × Heap → asyncevent_t × Heap
  | [], s => s
  | c :: cs, s => api_run prog cs (api_step prog s c)

/-! ## The iterations of a drain -/

/-- Modelled from the spec: the drain in the words of the spec, "it repeatedly
removes the current front node ..., looks up the callback for the node's
signal, invokes it synchronously with the node's argument, and frees the
node", "the drain re-checks queue state each iteration": the loop takes the
front node as long as the queue is not empty. This is not the loop of
asyncevent.c, which is `process_loop`; it is here to be compared with it. -/
def drain_by_recheck (prog : Program) : Nat → World → Status × World
  | 0, w => (Status.unfinished, w)
  | fuel + 1, w =>
    match w.handle.hlist with
    | [] => (Status.returned 0, w)
    | x :: _ => drain_by_recheck prog fuel (body prog x w)

theorem list_entry_mid (before : List eventlist_t) (x : eventlist_t) (rest : List eventlist_t)
    (hb : ∀ y ∈ before, y.list ≠ x.list) :
    list_entry x.list (before ++ x :: rest) = some x := by
  induction before with
  | nil => simp [list_entry]
  | cons b bs ih =>
    have h1 : b.list ≠ x.list := hb b (by simp)
    have h2 : ∀ y ∈ bs, y.list ≠ x.list := fun y hy => hb y (by simp [hy])
    simp [list_entry, h1, ih h2]

theorem list_del_mid (before : List eventlist_t) (x : eventlist_t) (rest : List eventlist_t)
    (hb : ∀ y ∈ before, y.list ≠ x.list) :
    list_del x.list (before ++ x :: rest) = before ++ rest := by
  induction before with
  | nil => simp [list_del]
  | cons b bs ih =>
    have h1 : b.list ≠ x.list := hb b (by simp)
    have h2 : ∀ y ∈ bs, y.list ≠ x.list := fun y hy => hb y (by simp [hy])
    simp [list_del, h1, ih h2]

theorem list_after_mid (before : List eventlist_t) (x : eventlist_t) (rest : List eventlist_t)
    (hb : ∀ y ∈ before, y.list ≠ x.list) :
    list_after x.list (before ++ x :: rest) = list_first rest := by
  induction before with
  | nil => simp [list_after]
  | cons b bs ih =>
    have h1 : b.list ≠ x.list := hb b (by simp)
    have h2 : ∀ y ∈ bs, y.list ≠ x.list := fun y hy => hb y (by simp [hy])
    simp [list_after, h1, ih h2]

theorem nodup_mid (before : List eventlist_t) (x : eventlist_t) (rest : List eventlist_t)
    (hn : (addrs (before ++ x :: rest)).Nodup) : ∀ y ∈ before, y.list ≠ x.list := by
  intro y hy heq
  unfold addrs at hn
  rw [List.map_append, List.nodup_append] at hn
  have := hn.2.2
  exact List.disjoint_left.mp this (List.mem_map_of_mem (fun z => z.list) hy)
    (by simp [heq])

/-! ## The emit call, case by case -/

theorem lock_taken (h : asyncevent_t) (hl : lock_free h) :
    ¬ (USE_MUTI_THREAD ≠ 0 ∧ ¬ lock_free h) := fun hw => hw.2 hl

theorem lock_waits (h : asyncevent_t) (hl : ¬ lock_free h) :
    USE_MUTI_THREAD ≠ 0 ∧ ¬ lock_free h := ⟨by decide, hl⟩

theorem emit_ok (h : asyncevent_t) (heap : Heap) (priority sig : Int) (args : VoidPtr)
    (hr : sig_accepted sig) (hb : (h.map sig).func ≠ 0) (hroom : heap.room ≠ 0)
    (hl : lock_free h) :
    async_event_emit (some h) priority sig args heap =
      (Status.returned 0,
        some { hlist := if priority ≠ 0
                   then { args := args, sig := sig, list := heap.brk } :: h.hlist
                   else h.hlist ++ [{ args := args, sig := sig, list := heap.brk }],
                 map := h.map },
        { brk := heap.brk + 1, room := heap.room - 1 }) := by
  unfold sig_accepted at hr
  simp only [async_event_emit, malloc]
  rw [if_neg hr, if_neg hb, if_neg hroom]
  simp only []
  rw [if_neg (lock_taken h hl)]
  by_cases hp : priority ≠ 0
  · simp [hp, list_add]
  · simp only [hp, if_false, list_add_tail]

theorem emit_waits (h : asyncevent_t) (heap : Heap) (priority sig : Int) (args : VoidPtr)
    (hr : sig_accepted sig) (hb : (h.map sig).func ≠ 0) (hroom : heap.room ≠ 0)
    (hl : ¬ lock_free h) :
    async_event_emit (some h) priority sig args heap =
      (Status.blocked, some h, { brk := heap.brk + 1, room := heap.room - 1 }) := by
  unfold sig_accepted at hr
  simp only [async_event_emit, malloc]
  rw [if_neg hr, if_neg hb, if_neg hroom]
  simp only []
  rw [if_pos (lock_waits h hl)]

theorem emit_trichotomy (h : asyncevent_t) (heap : Heap) (priority sig : Int)
    (args : VoidPtr) :
    (∃ r, r ≠ Status.returned 0 ∧ r ≠ Status.blocked ∧
      async_event_emit (some h) priority sig args heap = (r, some h, heap)) ∨
    (sig_accepted sig ∧ (h.map sig).func ≠ 0 ∧ heap.room ≠ 0 ∧ ¬ lock_free h) ∨
    (sig_accepted sig ∧ (h.map sig).func ≠ 0 ∧ heap.room ≠ 0 ∧ lock_free h) := by
  by_cases h1 : sig < 0 ∨ sig > 1024
  · refine Or.inl ⟨Status.returned (-2), by decide, by decide, ?_⟩
    simp only [async_event_emit]
    rw [if_pos h1]
  · by_cases h2 : (h.map sig).func = 0
    · refine Or.inl ⟨Status.returned (-3), by decide, by decide, ?_⟩
      simp only [async_event_emit]
      rw [if_neg h1, if_pos h2]
    · by_cases h3 : heap.room = 0
      · refine Or.inl ⟨Status.returned (-1), by decide, by decide, ?_⟩
        simp only [async_event_emit, malloc]
        rw [if_neg h1, if_neg h2, if_pos h3]
      · by_cases hl : lock_free h
        · exact Or.inr (Or.inr ⟨h1, h2, h3, hl⟩)
        · exact Or.inr (Or.inl ⟨h1, h2, h3, hl⟩)

theorem emit_zero_iff (h : asyncevent_t) (heap : Heap) (priority sig : Int) (args : VoidPtr)
    (hz : (async_event_emit (some h) priority sig args heap).1 = Status.returned 0) :
    sig_accepted sig ∧ (h.map sig).func ≠ 0 ∧ heap.room ≠ 0 ∧ lock_free h := by
  rcases emit_trichotomy h heap priority sig args with ⟨r, hr, _, he⟩ | ⟨a, b, c, d⟩ | hok
  · rw [he] at hz
    exact absurd hz hr
  · rw [emit_waits h heap priority sig args a b c d] at hz
    simp at hz
  · exact hok

/-! ## What a callback does to the world -/

theorem grew_refl (w : World) : Grew w w [] [] := by
  refine ⟨by simp, rfl, rfl, ⟨[], by simp, by simp⟩, le_refl _, by simp, by simp [addrs]⟩

theorem emit_call_grew (c : EmitCall) (w : World) :
    ∃ F B, Grew w (emit_call c w) F B := by
  unfold emit_call
  rcases emit_trichotomy w.handle w.heap c.priority c.sig c.args with
    ⟨r, hr, _, he⟩ | ⟨a, b, d, hl⟩ | ⟨a, b, d, hl⟩
  · rw [he]
    simp only [if_neg hr]
    exact ⟨[], [], grew_refl w⟩
  · rw [emit_waits w.handle w.heap c.priority c.sig c.args a b d hl]
    refine ⟨[], [], ?_⟩
    simp [Grew, addrs]
  · rw [emit_ok w.handle w.heap c.priority c.sig c.args a b d hl]
    by_cases h4 : c.priority ≠ 0
    · refine ⟨[{ args := c.args, sig := c.sig, list := w.heap.brk }], [], ?_⟩
      simp [Grew, addrs, b, h4]
    · refine ⟨[], [{ args := c.args, sig := c.sig, list := w.heap.brk }], ?_⟩
      simp [Grew, addrs, b, h4]

theorem grew_trans {w w1 w2 : World} {F1 B1 F2 B2 : List eventlist_t}
    (h1 : Grew w w1 F1 B1) (h2 : Grew w1 w2 F2 B2) :
    Grew w w2 (F2 ++ F1) (B1 ++ B2) := by
  obtain ⟨a1, a2, a3, ⟨E1, a4, a5⟩, a6, a7, a8⟩ := h1
  obtain ⟨b1, b2, b3, ⟨E2, b4, b5⟩, b6, b7, b8⟩ := h2
  have hperm : ((F2 ++ F1) ++ (B1 ++ B2)).Perm ((F1 ++ B1) ++ (F2 ++ B2)) := by
    have e1 : (F2 ++ F1) ++ (B1 ++ B2) = F2 ++ ((F1 ++ B1) ++ B2) := by simp
    rw [e1]
    have e2 : (F1 ++ B1) ++ (F2 ++ B2) = ((F1 ++ B1) ++ F2) ++ B2 := by simp
    rw [e2]
    have : (F2 ++ ((F1 ++ B1) ++ B2)) = (F2 ++ (F1 ++ B1)) ++ B2 := by simp
    rw [this]
    exact List.Perm.append_right B2 List.perm_append_comm
  refine ⟨?_, ?_, ?_, ⟨E1 ++ E2, ?_, ?_⟩, ?_, ?_, ?_⟩
  · rw [b1, a1]; simp
  · rw [b2, a2]
  · rw [b3, a3]
  · rw [b4, a4]; simp
  · exact (List.Perm.append a5 b5).trans hperm.symm
  · exact le_trans a6 b6
  · intro x hx
    have hx2 : x ∈ (F1 ++ B1) ++ (F2 ++ B2) := hperm.subset hx
    rcases List.mem_append.mp hx2 with hx3 | hx3
    · obtain ⟨c1, c2, c3⟩ := a7 x hx3
      exact ⟨c1, lt_of_lt_of_le c2 b6, c3⟩
    · obtain ⟨c1, c2, c3⟩ := b7 x hx3
      exact ⟨le_trans a6 c1, c2, by rw [← a2]; exact c3⟩
  · have hp2 : (addrs ((F2 ++ F1) ++ (B1 ++ B2))).Perm (addrs ((F1 ++ B1) ++ (F2 ++ B2))) :=
      List.Perm.map _ hperm
    rw [hp2.nodup_iff]
    unfold addrs at a8 b8 ⊢
    rw [List.map_append, List.nodup_append]
    refine ⟨a8, b8, ?_⟩
    rw [List.disjoint_left]
    intro a ha hb
    obtain ⟨x, hx, rfl⟩ := List.mem_map.mp ha
    obtain ⟨y, hy, hxy⟩ := List.mem_map.mp hb
    have c1 : x.list < w1.heap.brk := (a7 x hx).2.1
    have c2 : w1.heap.brk ≤ y.list := (b7 y hy).1
    have c3 : y.list = x.list := hxy
    rw [c3] at c2
    exact absurd (lt_of_lt_of_le c1 c2) (lt_irrefl _)

theorem run_emits_grew (cs : List EmitCall) (w : World) :
    ∃ F B, Grew w (run_emits cs w) F B := by
  induction cs generalizing w with
  | nil => exact ⟨[], [], grew_refl w⟩
  | cons c cs ih =>
    obtain ⟨F1, B1, h1⟩ := emit_call_grew c w
    obtain ⟨F2, B2, h2⟩ := ih (emit_call c w)
    exact ⟨F2 ++ F1, B1 ++ B2, grew_trans h1 h2⟩

theorem call_func_grew (prog : Program) (f : FuncPtr) (x : eventlist_t) (w : World) :
    ∃ F B, Grew { w with calls := w.calls ++ [{ func := f, node := x }] }
      (call_func prog f x w) F B := by
  unfold call_func
  exact run_emits_grew _ _

/-! ## One iteration of the drain loop -/

theorem sound_grown (before rest F B : List eventlist_t) (map : Int → eventinfo_t)
    (brk brk2 : Addr)
    (hn : (addrs (before ++ rest)).Nodup) (hlt : ∀ y ∈ before ++ rest, y.list < brk)
    (hb : ∀ y ∈ before ++ rest, (map y.sig).func ≠ 0)
    (hle : brk ≤ brk2)
    (hf : ∀ y ∈ F ++ B, brk ≤ y.list ∧ y.list < brk2 ∧ (map y.sig).func ≠ 0)
    (hfn : (addrs (F ++ B)).Nodup) :
    (addrs (F ++ before ++ rest ++ B)).Nodup ∧
    (∀ y ∈ F ++ before ++ rest ++ B, y.list < brk2) ∧
    (∀ y ∈ F ++ before ++ rest ++ B, (map y.sig).func ≠ 0) := by
  have hperm : (F ++ before ++ rest ++ B).Perm ((before ++ rest) ++ (F ++ B)) := by
    have e1 : F ++ before ++ rest ++ B = (F ++ (before ++ rest)) ++ B := by simp
    have e2 : (before ++ rest) ++ (F ++ B) = ((before ++ rest) ++ F) ++ B := by simp
    rw [e1, e2]
    exact List.Perm.append_right B List.perm_append_comm
  have hmem : ∀ y, y ∈ F ++ before ++ rest ++ B → y ∈ before ++ rest ∨ y ∈ F ++ B := by
    intro y hy
    exact List.mem_append.mp (hperm.subset hy)
  refine ⟨?_, ?_, ?_⟩
  · have hp2 : (addrs (F ++ before ++ rest ++ B)).Perm (addrs ((before ++ rest) ++ (F ++ B))) :=
      List.Perm.map _ hperm
    rw [hp2.nodup_iff]
    unfold addrs at hn hfn ⊢
    rw [List.map_append, List.nodup_append]
    refine ⟨hn, hfn, ?_⟩
    rw [List.disjoint_left]
    intro a ha hb2
    obtain ⟨y, hy, rfl⟩ := List.mem_map.mp ha
    obtain ⟨z, hz, hzy⟩ := List.mem_map.mp hb2
    have c1 : y.list < brk := hlt y hy
    have c2 : brk ≤ z.list := (hf z hz).1
    have c3 : z.list = y.list := hzy
    rw [c3] at c2
    exact absurd (lt_of_lt_of_le c1 c2) (lt_irrefl _)
  · intro y hy
    rcases hmem y hy with h | h
    · exact lt_of_lt_of_le (hlt y h) hle
    · exact (hf y h).2.1
  · intro y hy
    rcases hmem y hy with h | h
    · exact hb y h
    · exact (hf y h).2.2

theorem body_spec (prog : Program) (x : eventlist_t) (w : World)
    (before rest : List eventlist_t)
    (hw : w.handle.hlist = before ++ x :: rest) (hs : Sound w.handle w.heap) :
    ∃ F B E, (body prog x w).handle.hlist = F ++ before ++ rest ++ B ∧
      (body prog x w).handle.map = w.handle.map ∧
      (body prog x w).calls = w.calls ++ [call_of w.handle.map x] ∧
      (body prog x w).emitted = w.emitted ++ E ∧ E.Perm (F ++ B) ∧
      Sound (body prog x w).handle (body prog x w).heap ∧
      w.heap.brk ≤ (body prog x w).heap.brk ∧
      (∀ y ∈ F ++ B, w.heap.brk ≤ y.list ∧ y.list < (body prog x w).heap.brk) := by
  obtain ⟨hn, hlt, hb⟩ := hs
  rw [hw] at hn hlt hb
  have hne := nodup_mid before x rest hn
  have hdel : list_del x.list w.handle.hlist = before ++ rest := by
    rw [hw]; exact list_del_mid before x rest hne
  obtain ⟨F, B, g1, g2, g3, ⟨E, g4, g5⟩, g6, g7, g8⟩ :=
    call_func_grew prog (w.handle.map x.sig).func x
      { w with handle := { w.handle with hlist := list_del x.list w.handle.hlist } }
  simp only [hdel] at g1 g2 g3 g4 g6 g7
  have hsub : ∀ y, y ∈ before ++ rest → y ∈ before ++ x :: rest := by
    intro y hy
    rcases List.mem_append.mp hy with h | h
    · exact List.mem_append.mpr (Or.inl h)
    · exact List.mem_append.mpr (Or.inr (List.mem_cons_of_mem _ h))
  have hn2 : (addrs (before ++ rest)).Nodup := by
    unfold addrs at hn ⊢
    refine List.Nodup.sublist ?_ hn
    exact List.Sublist.map _ (List.Sublist.append_left (List.sublist_cons_self x rest) before)
  have hsound := sound_grown before rest F B w.handle.map w.heap.brk _
    hn2 (fun y hy => hlt y (hsub y hy)) (fun y hy => hb y (hsub y hy)) g6 g7 g8
  refine ⟨F, B, E, ?_, ?_, ?_, ?_, g5, ?_, ?_, ?_⟩
  · simp only [body, hdel]; rw [g1]; simp
  · simp only [body, hdel]; exact g2
  · simp only [body, hdel]; rw [g3]; rfl
  · simp only [body, hdel]; exact g4
  · unfold Sound
    simp only [body, free, hdel]
    rw [g1, g2]
    have e : F ++ (before ++ rest) ++ B = F ++ before ++ rest ++ B := by simp
    rw [e]
    exact hsound
  · simp only [body, free, hdel]; exact g6
  · intro y hy
    simp only [body, free, hdel]
    exact ⟨(g7 y hy).1, (g7 y hy).2.1⟩

theorem process_loop_step (prog : Program) (fuel : Nat) (w : World)
    (before : List eventlist_t) (x : eventlist_t) (rest : List eventlist_t)
    (pos n : Option Addr) (hc : Cursor w before (x :: rest) pos n) :
    process_loop prog (fuel + 1) pos n w =
      process_loop prog fuel (list_first rest)
        (list_next (body prog x w).handle.hlist (list_first rest)) (body prog x w) := by
  obtain ⟨hw, hs, hpos, hn, hl⟩ := hc
  have hne := nodup_mid before x rest (hw ▸ hs.1)
  have hent : list_entry x.list w.handle.hlist = some x := by
    rw [hw]; exact list_entry_mid before x rest hne
  have hfun : (w.handle.map x.sig).func ≠ 0 := hs.2.2 x (by rw [hw]; simp)
  have hpos2 : pos = some x.list := by rw [hpos]; rfl
  have hn2 : n = list_first rest := by
    rw [hn, hpos2, hw]
    exact list_after_mid before x rest hne
  rw [hpos2, hn2]
  simp only [process_loop]
  rw [if_neg (lock_taken w.handle hl)]
  simp only [hent]
  rw [if_neg hfun]
  rfl

theorem cursor_next (prog : Program) (w : World)
    (before : List eventlist_t) (x : eventlist_t) (rest : List eventlist_t)
    (pos n : Option Addr) (hc : Cursor w before (x :: rest) pos n) :
    ∃ before2 B E,
      Cursor (body prog x w) before2 (rest ++ B) (list_first rest)
        (list_next (body prog x w).handle.hlist (list_first rest)) ∧
      (rest = [] → B = []) ∧
      (body prog x w).handle.map = w.handle.map ∧
      (body prog x w).calls = w.calls ++ [call_of w.handle.map x] ∧
      (body prog x w).emitted = w.emitted ++ E ∧
      (before2 ++ (rest ++ B)).Perm (before ++ rest ++ E) ∧
      w.heap.brk ≤ (body prog x w).heap.brk ∧
      (∀ y ∈ E, w.heap.brk ≤ y.list ∧ y.list < (body prog x w).heap.brk) := by
  obtain ⟨hw, hs, _, _, hl⟩ := hc
  obtain ⟨F, B, E, b1, b2, b3, b4, b5, b6, b7, b8⟩ := body_spec prog x w before rest hw hs
  have hl2 : lock_free (body prog x w).handle := by
    unfold lock_free at hl ⊢
    rw [b2]; exact hl
  have b9 : ∀ y ∈ E, w.heap.brk ≤ y.list ∧ y.list < (body prog x w).heap.brk :=
    fun y hy => b8 y (b5.subset hy)
  have hperm : (F ++ before ++ rest ++ B).Perm (before ++ rest ++ E) := by
    have e1 : F ++ before ++ rest ++ B = (F ++ (before ++ rest)) ++ B := by simp
    have e2 : before ++ rest ++ E = (before ++ rest) ++ E := by simp
    rw [e1, e2]
    have p1 : ((F ++ (before ++ rest)) ++ B).Perm (((before ++ rest) ++ F) ++ B) :=
      List.Perm.append_right B List.perm_append_comm
    have e3 : ((before ++ rest) ++ F) ++ B = (before ++ rest) ++ (F ++ B) := by simp
    rw [e3] at p1
    exact p1.trans (List.Perm.append_left (before ++ rest) b5.symm)
  cases rest with
  | nil =>
    refine ⟨F ++ before ++ B, [], E, ⟨?_, b6, rfl, rfl, hl2⟩, fun _ => rfl, b2, b3, b4, ?_,
      b7, b9⟩
    · rw [b1]; simp
    · simpa using hperm
  | cons r rs =>
    refine ⟨F ++ before, B, E, ⟨?_, b6, rfl, rfl, hl2⟩, fun h => absurd h (by simp), b2, b3,
      b4, ?_, b7, b9⟩
    · rw [b1]; simp
    · have e : F ++ before ++ (r :: rs ++ B) = F ++ before ++ (r :: rs) ++ B := by simp
      rw [e]; exact hperm

/-! ## The drain loop as a whole -/

theorem take_of_take_append (D rest B : List eventlist_t) (k : Nat)
    (h : D.take (rest ++ B).length = (rest ++ B).take k) :
    D.take rest.length = rest.take k := by
  have h2 := congrArg (List.take rest.length) h
  rw [List.take_take, List.take_take] at h2
  have e1 : min rest.length (rest ++ B).length = rest.length := by
    simp
  rw [e1] at h2
  rw [h2]
  rw [List.take_append_of_le_length (Nat.min_le_left _ _)]
  by_cases hk : k ≤ rest.length
  · rw [Nat.min_eq_right hk]
  · have hk2 : rest.length ≤ k := by omega
    rw [Nat.min_eq_left hk2, List.take_of_length_le hk2, List.take_of_length_le (le_refl _)]

theorem process_loop_spec (prog : Program) :
    ∀ (fuel : Nat) (w : World) (before after : List eventlist_t) (pos n : Option Addr),
    Cursor w before after pos n →
    ∃ D E,
      (process_loop prog fuel pos n w).2.calls = w.calls ++ D.map (call_of w.handle.map) ∧
      (process_loop prog fuel pos n w).2.emitted = w.emitted ++ E ∧
      (process_loop prog fuel pos n w).2.handle.map = w.handle.map ∧
      (D ++ (process_loop prog fuel pos n w).2.handle.hlist).Perm (before ++ after ++ E) ∧
      Sound (process_loop prog fuel pos n w).2.handle (process_loop prog fuel pos n w).2.heap ∧
      D.take after.length = after.take fuel ∧
      (((process_loop prog fuel pos n w).1 = Status.unfinished ∧ D.length = fuel) ∨
       ((process_loop prog fuel pos n w).1 = Status.returned 0 ∧ D.length < fuel ∧
          ∃ D2, D = after ++ D2)) ∧
      w.heap.brk ≤ (process_loop prog fuel pos n w).2.heap.brk ∧
      (∀ y ∈ E, w.heap.brk ≤ y.list ∧
        y.list < (process_loop prog fuel pos n w).2.heap.brk) ∧
      (addrs (before ++ after ++ E)).Nodup := by
  intro fuel
  induction fuel with
  | zero =>
    intro w before after pos n hc
    refine ⟨[], [], ?_, ?_, ?_, ?_, ?_, ?_, ?_, ?_, ?_, ?_⟩
    · simp [process_loop]
    · simp [process_loop]
    · simp [process_loop]
    · simp [process_loop, hc.1]
    · simpa [process_loop] using hc.2.1
    · simp
    · left; simp [process_loop]
    · simp [process_loop]
    · simp
    · have hs := hc.2.1.1
      rw [hc.1] at hs
      simpa using hs
  | succ k ih =>
    intro w before after pos n hc
    cases after with
    | nil =>
      have hpos : pos = none := hc.2.2.1
      subst hpos
      refine ⟨[], [], ?_, ?_, ?_, ?_, ?_, ?_, ?_, ?_, ?_, ?_⟩
      · simp [process_loop]
      · simp [process_loop]
      · simp [process_loop]
      · simp [process_loop, hc.1]
      · simpa [process_loop] using hc.2.1
      · simp
      · right; simp [process_loop]
      · simp [process_loop]
      · simp
      · have hs := hc.2.1.1
        rw [hc.1] at hs
        simpa using hs
    | cons x rest =>
      rw [process_loop_step prog k w before x rest pos n hc]
      obtain ⟨before2, B, E1, hc2, hB, c1, c2, c3, c4, c5, c6⟩ :=
        cursor_next prog w before x rest pos n hc
      obtain ⟨D2, E2, d1, d2, d3, d4, d5, d6, d7, d8, d9, d10⟩ :=
        ih (body prog x w) before2 (rest ++ B)
        (list_first rest) (list_next (body prog x w).handle.hlist (list_first rest)) hc2
      have hfresh : ∀ y ∈ E1 ++ E2, w.heap.brk ≤ y.list ∧
          y.list < (process_loop prog k (list_first rest)
            (list_next (body prog x w).handle.hlist (list_first rest))
            (body prog x w)).2.heap.brk := by
        intro y hy
        rcases List.mem_append.mp hy with h | h
        · exact ⟨(c6 y h).1, lt_of_lt_of_le (c6 y h).2 d8⟩
        · exact ⟨le_trans c5 (d9 y h).1, (d9 y h).2⟩
      have p2 : (before2 ++ (rest ++ B) ++ E2).Perm ((before ++ rest ++ E1) ++ E2) :=
        List.Perm.append_right E2 c4
      have p3 : (x :: ((before ++ rest ++ E1) ++ E2)).Perm
          (before ++ x :: rest ++ (E1 ++ E2)) := by
        have e : before ++ x :: rest ++ (E1 ++ E2) = before ++ x :: (rest ++ (E1 ++ E2)) := by
          simp
        rw [e]
        have e2 : (before ++ rest ++ E1) ++ E2 = before ++ (rest ++ (E1 ++ E2)) := by simp
        rw [e2]
        exact List.perm_middle.symm
      refine ⟨x :: D2, E1 ++ E2, ?_, ?_, ?_, ?_, d5, ?_, ?_, le_trans c5 d8, hfresh, ?_⟩
      · rw [d1, c2, c1]; simp
      · rw [d2, c3]; simp
      · rw [d3, c1]
      · have p1 : (x :: D2 ++
            (process_loop prog k (list_first rest)
              (list_next (body prog x w).handle.hlist (list_first rest))
              (body prog x w)).2.handle.hlist).Perm
            (x :: (before2 ++ (rest ++ B) ++ E2)) := List.Perm.cons x d4
        exact (p1.trans (List.Perm.cons x p2)).trans p3
      · have := take_of_take_append D2 rest B k d6
        simp [List.take_succ_cons, this]
      · rcases d7 with ⟨s1, s2⟩ | ⟨s1, s2, D3, s3⟩
        · left; exact ⟨s1, by simp [s2]⟩
        · right
          refine ⟨s1, by simp; omega, B ++ D3, ?_⟩
          rw [s3]; simp
      · have q1 : (addrs ((before ++ rest ++ E1) ++ E2)).Nodup := by
          unfold addrs at d10 ⊢
          exact ((List.Perm.map (fun z => z.list) p2).nodup_iff).mp d10
        have q2 : (addrs (x :: ((before ++ rest ++ E1) ++ E2))).Nodup := by
          unfold addrs at q1 ⊢
          rw [List.map_cons, List.nodup_cons]
          refine ⟨?_, q1⟩
          intro hmem
          obtain ⟨y, hy, hyx⟩ := List.mem_map.mp hmem
          have hyx2 : y.list = x.list := hyx
          have hs := hc.2.1
          unfold Sound at hs
          rw [hc.1] at hs
          have hy2 : y ∈ (before ++ rest) ++ (E1 ++ E2) := by simpa using hy
          rcases List.mem_append.mp hy2 with h | h
          · have hn := hs.1
            unfold addrs at hn
            rw [List.map_append, List.map_cons] at hn
            have hn2 := (List.nodup_cons.mp (List.nodup_middle.mp hn)).1
            apply hn2
            rw [← List.map_append]
            exact List.mem_map.mpr ⟨y, h, hyx2⟩
          · have c7 : w.heap.brk ≤ y.list := (hfresh y h).1
            have c8 : x.list < w.heap.brk := hs.2.1 x (by simp)
            rw [hyx2] at c7
            exact absurd (lt_of_lt_of_le c8 c7) (lt_irrefl _)
        unfold addrs at q2 ⊢
        exact ((List.Perm.map (fun z => z.list) p3).nodup_iff).mp q2

theorem process_unfold (prog : Program) (fuel : Nat) (h : asyncevent_t) (heap : Heap)
    (hq : h.hlist ≠ []) (hlock : lock_free h) :
    async_event_process prog fuel (some h) heap =
      { status := (process_loop prog fuel (list_first h.hlist)
            (list_next h.hlist (list_first h.hlist))
            { handle := h, heap := heap, calls := [], emitted := [] }).1,
        handle := some (process_loop prog fuel (list_first h.hlist)
            (list_next h.hlist (list_first h.hlist))
            { handle := h, heap := heap, calls := [], emitted := [] }).2.handle,
        heap := (process_loop prog fuel (list_first h.hlist)
            (list_next h.hlist (list_first h.hlist))
            { handle := h, heap := heap, calls := [], emitted := [] }).2.heap,
        calls := (process_loop prog fuel (list_first h.hlist)
            (list_next h.hlist (list_first h.hlist))
            { handle := h, heap := heap, calls := [], emitted := [] }).2.calls,
        emitted := (process_loop prog fuel (list_first h.hlist)
            (list_next h.hlist (list_first h.hlist))
            { handle := h, heap := heap, calls := [], emitted := [] }).2.emitted } := by
  have he : list_empty h.hlist = false := by
    cases hl : h.hlist with
    | nil => exact absurd hl hq
    | cons a l => rfl
  simp [async_event_process, he, list_next, hlock]

theorem process_waits (prog : Program) (fuel : Nat) (h : asyncevent_t) (heap : Heap)
    (hw : ¬ lock_free h ∨ h.hlist = []) :
    async_event_process prog fuel (some h) heap =
      { status := Status.blocked, handle := some h, heap := heap,
        calls := [], emitted := [] } := by
  by_cases hl : lock_free h
  · rcases hw with h1 | h1
    · exact absurd hl h1
    · simp [async_event_process, USE_MUTI_THREAD, list_empty, h1, hl]
  · simp [async_event_process, USE_MUTI_THREAD, hl]

theorem cursor_start (h : asyncevent_t) (heap : Heap) (hs : Sound h heap)
    (hlock : lock_free h) :
    Cursor { handle := h, heap := heap, calls := [], emitted := [] } [] h.hlist
      (list_first h.hlist) (list_next h.hlist (list_first h.hlist)) :=
  ⟨rfl, hs, rfl, rfl, hlock⟩

theorem process_spec (prog : Program) (fuel : Nat) (h : asyncevent_t) (heap : Heap)
    (hs : Sound h heap) (hq : h.hlist ≠ []) (hlock : lock_free h) :
    ∃ D h2,
      (async_event_process prog fuel (some h) heap).handle = some h2 ∧
      (async_event_process prog fuel (some h) heap).calls = D.map (call_of h.map) ∧
      h2.map = h.map ∧
      (D ++ h2.hlist).Perm (h.hlist ++ (async_event_process prog fuel (some h) heap).emitted) ∧
      Sound h2 (async_event_process prog fuel (some h) heap).heap ∧
      D.take h.hlist.length = h.hlist.take fuel ∧
      (((async_event_process prog fuel (some h) heap).status = Status.unfinished ∧
          D.length = fuel) ∨
       ((async_event_process prog fuel (some h) heap).status = Status.returned 0 ∧
          D.length < fuel ∧ ∃ D2, D = h.hlist ++ D2)) ∧
      heap.brk ≤ (async_event_process prog fuel (some h) heap).heap.brk ∧
      (∀ y ∈ (async_event_process prog fuel (some h) heap).emitted, heap.brk ≤ y.list ∧
        y.list < (async_event_process prog fuel (some h) heap).heap.brk) ∧
      (addrs (h.hlist ++ (async_event_process prog fuel (some h) heap).emitted)).Nodup := by
  obtain ⟨D, E, d1, d2, d3, d4, d5, d6, d7, d8, d9, d10⟩ :=
    process_loop_spec prog fuel { handle := h, heap := heap, calls := [], emitted := [] }
      [] h.hlist _ _ (cursor_start h heap hs hlock)
  rw [process_unfold prog fuel h heap hq hlock]
  simp only [List.nil_append] at d1 d2 d4 d10
  refine ⟨D, _, rfl, d1, d3, ?_, d5, d6, d7, d8, ?_, ?_⟩
  · simp only [d2]; exact d4
  · simp only [d2]; exact d9
  · simp only [d2]; exact d10

/-! ## A drain whose callbacks do not emit -/

theorem body_silent (prog : Program) (x : eventlist_t) (w : World)
    (before rest : List eventlist_t)
    (hw : w.handle.hlist = before ++ x :: rest) (hn : (addrs w.handle.hlist).Nodup)
    (hq : prog (w.handle.map x.sig).func x.args = []) :
    body prog x w =
      { handle := { hlist := before ++ rest, map := w.handle.map },
        heap := { brk := w.heap.brk, room := w.heap.room + 1 },
        calls := w.calls ++ [call_of w.handle.map x], emitted := w.emitted } := by
  have hdel : list_del x.list w.handle.hlist = before ++ rest := by
    rw [hw]; exact list_del_mid before x rest (nodup_mid before x rest (hw ▸ hn))
  simp [body, call_func, hq, run_emits, hdel, free, call_of]

theorem process_loop_silent (prog : Program) :
    ∀ (after : List eventlist_t) (fuel : Nat) (w : World) (before : List eventlist_t)
      (pos n : Option Addr),
    Cursor w before after pos n →
    (∀ x ∈ after, prog (w.handle.map x.sig).func x.args = []) →
    after.length < fuel →
    process_loop prog fuel pos n w =
      (Status.returned 0,
        { handle := { hlist := before, map := w.handle.map },
          heap := { brk := w.heap.brk, room := w.heap.room + after.length },
          calls := w.calls ++ after.map (call_of w.handle.map), emitted := w.emitted }) := by
  intro after
  induction after with
  | nil =>
    intro fuel w before pos n hc _ hf
    obtain ⟨k, rfl⟩ : ∃ k, fuel = k + 1 := ⟨fuel - 1, by simp at hf; omega⟩
    have hpos : pos = none := hc.2.2.1
    subst hpos
    have hw := hc.1
    obtain ⟨⟨hl, mp⟩, ⟨b, r⟩, cl, em⟩ := w
    simp at hw
    simp [process_loop, hw]
  | cons x rest ih =>
    intro fuel w before pos n hc hq hf
    obtain ⟨k, rfl⟩ : ∃ k, fuel = k + 1 := ⟨fuel - 1, by simp at hf; omega⟩
    rw [process_loop_step prog k w before x rest pos n hc]
    have hb := body_silent prog x w before rest hc.1 hc.2.1.1 (hq x (by simp))
    rw [hb]
    have hs := hc.2.1
    unfold Sound at hs
    rw [hc.1] at hs
    have hsub : ∀ y, y ∈ before ++ rest → y ∈ before ++ x :: rest := by
      intro y hy
      rcases List.mem_append.mp hy with h | h
      · exact List.mem_append.mpr (Or.inl h)
      · exact List.mem_append.mpr (Or.inr (List.mem_cons_of_mem _ h))
    have hc2 : Cursor
        { handle := { hlist := before ++ rest, map := w.handle.map },
          heap := { brk := w.heap.brk, room := w.heap.room + 1 },
          calls := w.calls ++ [call_of w.handle.map x], emitted := w.emitted }
        before rest (list_first rest) (list_next (before ++ rest) (list_first rest)) := by
      refine ⟨rfl, ⟨?_, ?_, ?_⟩, rfl, rfl, hc.2.2.2.2⟩
      · have hn := hs.1
        unfold addrs at hn ⊢
        refine List.Nodup.sublist ?_ hn
        exact List.Sublist.map _
          (List.Sublist.append_left (List.sublist_cons_self x rest) before)
      · intro y hy; exact hs.2.1 y (hsub y hy)
      · intro y hy; exact hs.2.2 y (hsub y hy)
    have hlen : rest.length < k := by simp at hf; omega
    rw [ih k _ before _ _ hc2 (fun y hy => hq y (by simp [hy])) hlen]
    simp only [List.map_cons, List.length_cons, List.append_assoc, List.singleton_append,
      Nat.add_assoc, Nat.add_comm 1]

/-! ## Emitting from outside a drain -/


theorem addrs_nodes_of (es : List (Int × VoidPtr)) :
    ∀ b : Addr, addrs (nodes_of b es) = List.range' b es.length := by
  induction es with
  | nil => intro b; rfl
  | cons e rest ih =>
    intro b
    simp only [nodes_of, addrs, List.map_cons, List.length_cons, List.range'_succ]
    have := ih (b + 1)
    unfold addrs at this
    rw [this]

theorem nodes_of_calls (map : Int → eventinfo_t) (es : List (Int × VoidPtr)) :
    ∀ b : Addr, ((nodes_of b es).map (call_of map)).map (fun c => (c.func, c.node.args)) =
      es.map (fun e => ((map e.1).func, e.2)) := by
  induction es with
  | nil => intro b; rfl
  | cons e rest ih =>
    intro b
    simp only [nodes_of, List.map_cons, call_of]
    have := ih (b + 1)
    simp only [List.map_map] at this ⊢
    rw [this]

theorem mem_nodes_of (es : List (Int × VoidPtr)) :
    ∀ (b : Addr) (x : eventlist_t), x ∈ nodes_of b es → (x.sig, x.args) ∈ es := by
  induction es with
  | nil => intro b x hx; simp [nodes_of] at hx
  | cons e rest ih =>
    intro b x hx
    simp only [nodes_of, List.mem_cons] at hx
    rcases hx with rfl | hx
    · simp
    · exact List.mem_cons_of_mem _ (ih (b + 1) x hx)

theorem in_table_accepted (sig : Int) (ht : in_table sig) : sig_accepted sig := by
  unfold in_table MAP_SLOTS at ht
  unfold sig_accepted
  omega

theorem emit_each_spec (es : List (Int × VoidPtr)) :
    ∀ (h : asyncevent_t) (heap : Heap), lock_free h →
    (∀ e ∈ es, sig_accepted e.1 ∧ (h.map e.1).func ≠ 0) → es.length ≤ heap.room →
    emit_each es (some h) heap =
      (some { hlist := h.hlist ++ nodes_of heap.brk es, map := h.map },
        { brk := heap.brk + es.length, room := heap.room - es.length }) := by
  induction es with
  | nil =>
    intro h heap _ _ _
    simp [emit_each, nodes_of]
  | cons e rest ih =>
    intro h heap hl hb hroom
    have hlen : rest.length + 1 ≤ heap.room := by simpa using hroom
    have hroom1 : heap.room ≠ 0 := by omega
    have he := hb e (by simp)
    unfold emit_each
    rw [emit_ok h heap 0 e.1 e.2 he.1 he.2 hroom1 hl]
    simp only [ne_eq, not_true_eq_false, if_false]
    have h3 := ih { hlist := h.hlist ++ [{ args := e.2, sig := e.1, list := heap.brk }],
                    map := h.map } { brk := heap.brk + 1, room := heap.room - 1 } hl
      (fun e2 h2 => hb e2 (by simp [h2])) (by simp only []; omega)
    rw [h3]
    simp only [nodes_of, List.append_assoc, List.singleton_append, List.length_cons]
    congr 2
    · rw [Nat.add_assoc, Nat.add_comm 1]
    · omega


theorem sound_cons (h : asyncevent_t) (heap : Heap) (sig : Int) (args : VoidPtr)
    (hs : Sound h heap) (hb : (h.map sig).func ≠ 0) :
    Sound { hlist := { args := args, sig := sig, list := heap.brk } :: h.hlist, map := h.map }
      { brk := heap.brk + 1, room := heap.room - 1 } := by
  obtain ⟨s1, s2, s3⟩ := hs
  refine ⟨?_, ?_, ?_⟩
  · unfold addrs at s1 ⊢
    rw [List.map_cons, List.nodup_cons]
    refine ⟨?_, s1⟩
    intro hmem
    obtain ⟨y, hy, hyx⟩ := List.mem_map.mp hmem
    have c1 : y.list < heap.brk := s2 y hy
    have c2 : y.list = heap.brk := hyx
    rw [c2] at c1
    exact absurd c1 (lt_irrefl _)
  · intro y hy
    rcases List.mem_cons.mp hy with rfl | hy
    · exact Nat.lt_succ_self _
    · exact Nat.lt_succ_of_lt (s2 y hy)
  · intro y hy
    rcases List.mem_cons.mp hy with rfl | hy
    · exact hb
    · exact s3 y hy

theorem sound_nodes_of (h : asyncevent_t) (heap : Heap) (es : List (Int × VoidPtr))
    (hempty : h.hlist = []) (hb : ∀ e ∈ es, (h.map e.1).func ≠ 0) :
    Sound { hlist := h.hlist ++ nodes_of heap.brk es, map := h.map }
      { brk := heap.brk + es.length, room := heap.room - es.length } := by
  rw [hempty]
  refine ⟨?_, ?_, ?_⟩
  · simp only [List.nil_append]
    rw [addrs_nodes_of]
    exact List.nodup_range' _ _
  · intro y hy
    simp only [List.nil_append] at hy
    have hm : y.list ∈ addrs (nodes_of heap.brk es) := List.mem_map_of_mem (fun z => z.list) hy
    rw [addrs_nodes_of] at hm
    have := (List.mem_range'_1.mp hm).2
    exact this
  · intro y hy
    simp only [List.nil_append] at hy
    exact hb (y.sig, y.args) (mem_nodes_of es heap.brk y hy)

/-! ## Teardown -/

theorem destory_loop_spec :
    ∀ (q : List eventlist_t) (fuel : Nat) (heap : Heap) (freed : List eventlist_t),
    (addrs q).Nodup → q.length < fuel →
    destory_loop fuel (list_first q) (list_next q (list_first q)) q heap freed =
      (Status.returned 0, [], { brk := heap.brk, room := heap.room + q.length }, freed ++ q) := by
  intro q
  induction q with
  | nil =>
    intro fuel heap freed _ hf
    obtain ⟨k, rfl⟩ : ∃ k, fuel = k + 1 := ⟨fuel - 1, by simp at hf; omega⟩
    simp [destory_loop, list_first]
  | cons x rest ih =>
    intro fuel heap freed hn hf
    obtain ⟨k, rfl⟩ : ∃ k, fuel = k + 1 := ⟨fuel - 1, by simp at hf; omega⟩
    have hn2 : (addrs rest).Nodup := by
      unfold addrs at hn ⊢
      rw [List.map_cons, List.nodup_cons] at hn
      exact hn.2
    have hlen : rest.length < k := by simp at hf; omega
    have h1 : list_first (x :: rest) = some x.list := rfl
    have h2 : list_next (x :: rest) (some x.list) = list_first rest := by
      simp [list_next, list_after]
    rw [h1, h2]
    simp only [destory_loop, list_entry, list_del, if_true]
    rw [ih k (free x.list heap) (freed ++ [x]) hn2 hlen]
    simp only [free, List.length_cons, List.append_assoc, List.singleton_append,
      Nat.add_assoc, Nat.add_comm 1]

/-! ## Conservation of events along a history -/

theorem dispatched_call_of (map : Int → eventinfo_t) (D : List eventlist_t) :
    dispatched (D.map (call_of map)) = D := by
  unfold dispatched
  rw [List.map_map]
  have : ((fun c : Call => c.node) ∘ call_of map) = id := by
    funext x; rfl
  rw [this, List.map_id]

theorem nodup_addrs_append (A E : List eventlist_t) (b : Addr)
    (hA : (addrs A).Nodup) (hE : (addrs E).Nodup)
    (hlt : ∀ y ∈ A, y.list < b) (hge : ∀ y ∈ E, b ≤ y.list) :
    (addrs (A ++ E)).Nodup := by
  unfold addrs at hA hE ⊢
  rw [List.map_append, List.nodup_append]
  refine ⟨hA, hE, ?_⟩
  rw [List.disjoint_left]
  intro a ha hb
  obtain ⟨y, hy, rfl⟩ := List.mem_map.mp ha
  obtain ⟨z, hz, hzy⟩ := List.mem_map.mp hb
  have c1 : y.list < b := hlt y hy
  have c2 : b ≤ z.list := hge z hz
  have c3 : z.list = y.list := hzy
  rw [c3] at c2
  exact absurd (lt_of_lt_of_le c1 c2) (lt_irrefl _)

theorem emit_call_conserved (c : EmitCall) (w : World) (hw : Conserved w) :
    Conserved (emit_call c w) ∧ (emit_call c w).handle.map = w.handle.map := by
  obtain ⟨F, B, g1, g2, g3, ⟨E, g4, g5⟩, g6, g7, g8⟩ := emit_call_grew c w
  obtain ⟨s, p, n, l, f⟩ := hw
  have hsound := sound_grown [] w.handle.hlist F B w.handle.map w.heap.brk
    (emit_call c w).heap.brk (by simpa using s.1) (by simpa using s.2.1)
    (by simpa using s.2.2) g6 g7 g8
  have hE : (addrs E).Nodup := by
    unfold addrs at g8 ⊢
    exact ((List.Perm.map (fun z => z.list) g5).nodup_iff).mpr g8
  refine ⟨⟨?_, ?_, ?_, ?_, ?_⟩, g2⟩
  · unfold Sound
    rw [g1, g2]
    simpa using hsound
  · rw [g1, g3, g4]
    have p1 : (dispatched w.calls ++ (F ++ w.handle.hlist ++ B)).Perm
        ((dispatched w.calls ++ w.handle.hlist) ++ (F ++ B)) := by
      have e1 : dispatched w.calls ++ (F ++ w.handle.hlist ++ B) =
          dispatched w.calls ++ ((F ++ w.handle.hlist) ++ B) := by simp
      have e2 : (dispatched w.calls ++ w.handle.hlist) ++ (F ++ B) =
          dispatched w.calls ++ ((w.handle.hlist ++ F) ++ B) := by simp
      rw [e1, e2]
      exact List.Perm.append_left _ (List.Perm.append_right B List.perm_append_comm)
    exact p1.trans (List.Perm.append p g5.symm)
  · rw [g4]
    exact nodup_addrs_append w.emitted E w.heap.brk n hE l
      (fun y hy => (g7 y (g5.subset hy)).1)
  · rw [g4]
    intro y hy
    rcases List.mem_append.mp hy with h1 | h1
    · exact lt_of_lt_of_le (l y h1) g6
    · exact (g7 y (g5.subset h1)).2.1
  · rw [g3, g2]; exact f

theorem process_conserved (prog : Program) (fuel : Nat) (w : World) (hw : Conserved w) :
    Conserved (apply_op prog w (Op.process fuel)) ∧
    (apply_op prog w (Op.process fuel)).handle.map = w.handle.map := by
  obtain ⟨s, p, n, l, f⟩ := hw
  by_cases hq : ¬ lock_free w.handle ∨ w.handle.hlist = []
  · have hb := process_waits prog fuel w.handle w.heap hq
    simp only [apply_op, hb, List.append_nil]
    exact ⟨⟨s, p, n, l, f⟩, trivial⟩
  · have hlock : lock_free w.handle := by
      by_contra hc; exact hq (Or.inl hc)
    have hne : w.handle.hlist ≠ [] := fun hc => hq (Or.inr hc)
    obtain ⟨D, h2, d1, d2, d3, d4, d5, _, _, d8, d9, d10⟩ :=
      process_spec prog fuel w.handle w.heap s hne hlock
    simp only [apply_op, d1]
    have hE : (addrs (async_event_process prog fuel (some w.handle) w.heap).emitted).Nodup := by
      unfold addrs at d10 ⊢
      rw [List.map_append] at d10
      exact (List.nodup_append.mp d10).2.1
    refine ⟨⟨d5, ?_, ?_, ?_, ?_⟩, d3⟩
    · simp only [d2]
      unfold dispatched at p ⊢
      rw [List.map_append]
      have e0 := dispatched_call_of w.handle.map D
      unfold dispatched at e0
      rw [e0]
      have e1 : List.map (fun c => c.node) w.calls ++ D ++ h2.hlist =
          List.map (fun c => c.node) w.calls ++ (D ++ h2.hlist) := by simp
      rw [e1]
      have p1 := List.Perm.append_left (List.map (fun c : Call => c.node) w.calls) d4
      have e2 : List.map (fun c : Call => c.node) w.calls ++
          (w.handle.hlist ++ (async_event_process prog fuel (some w.handle) w.heap).emitted) =
          (List.map (fun c : Call => c.node) w.calls ++ w.handle.hlist) ++
            (async_event_process prog fuel (some w.handle) w.heap).emitted := by simp
      rw [e2] at p1
      exact p1.trans (List.Perm.append_right _ p)
    · exact nodup_addrs_append w.emitted _ w.heap.brk n hE l (fun y hy => (d9 y hy).1)
    · intro y hy
      rcases List.mem_append.mp hy with h1 | h1
      · exact lt_of_lt_of_le (l y h1) d8
      · exact (d9 y h1).2
    · intro c hc
      simp only [d3]
      rcases List.mem_append.mp hc with h1 | h1
      · exact f c h1
      · rw [d2] at h1
        obtain ⟨x, _, hx⟩ := List.mem_map.mp h1
        rw [← hx]; rfl

theorem run_ops_conserved (prog : Program) (ops : List Op) :
    ∀ w : World, Conserved w → Conserved (run_ops prog ops w) := by
  induction ops with
  | nil => intro w hw; exact hw
  | cons op ops ih =>
    intro w hw
    cases op with
    | emit priority sig args => exact ih _ (emit_call_conserved _ w hw).1
    | process fuel => exact ih _ (process_conserved prog fuel w hw).1

theorem run_ops_map (prog : Program) (ops : List Op) :
    ∀ w : World, Conserved w → (run_ops prog ops w).handle.map = w.handle.map := by
  induction ops with
  | nil => intro w _; rfl
  | cons op ops ih =>
    intro w hw
    cases op with
    | emit priority sig args =>
      have h1 := emit_call_conserved { priority := priority, sig := sig, args := args } w hw
      exact (ih _ h1.1).trans h1.2
    | process fuel =>
      have h1 := process_conserved prog fuel w hw
      exact (ih _ h1.1).trans h1.2

/-! ## The demo states are the ones the interface builds -/

theorem main_handle_eq : main_handle = some main_struct := rfl

theorem scenario_built :
    emit_each [(CLICK, 11), (MOVE, 12)]
      (async_event_bind (async_event_bind (some blank_handle) CLICK 201).2 MOVE 202).2
      main_heap = (some scenario_struct, scenario_heap) := rfl

theorem clicked_built :
    async_event_emit main_handle 0 CLICK 7 main_heap =
      (Status.returned 0, some clicked_struct, clicked_heap) :=
  rfl

/-! ## The loop of the code and the loop of the spec's sentences -/

theorem loop_and_recheck_differ :
    (process_loop main_prog 9 (some 1000) none
      { handle := clicked_struct, heap := clicked_heap, calls := [], emitted := [] }).1 =
      Status.returned 0 ∧
    (process_loop main_prog 9 (some 1000) none
      { handle := clicked_struct, heap := clicked_heap, calls := [], emitted := []
        }).2.handle.hlist =
      [{ args := 7, sig := RELEASE, list := 1003 }, { args := 7, sig := PRESS, list := 1002 },
       { args := 7, sig := MOVE, list := 1001 }] ∧
    (drain_by_recheck main_prog 9
      { handle := clicked_struct, heap := clicked_heap, calls := [], emitted := [] }).1 =
      Status.returned 0 ∧
    (drain_by_recheck main_prog 9
      { handle := clicked_struct, heap := clicked_heap, calls := [], emitted := []
        }).2.handle.hlist = [] ∧
    (process_loop (self_prog 0) 9 (some 1000) none
      { handle := clicked_struct, heap := clicked_heap, calls := [], emitted := [] }).1 =
      Status.returned 0 ∧
    (drain_by_recheck (self_prog 0) 9
      { handle := clicked_struct, heap := clicked_heap, calls := [], emitted := [] }).1 =
      Status.unfinished := by
  decide

/-! ## Claims -/

/-- C1 (FIFO). On a handle with an empty queue and a free mutex, after the
signals of `es` (all of the table and bound, the allocator having room for
them) are emitted in order with priority 0, and when none of their callbacks
emits, one `async_event_process` call invokes exactly the callbacks bound to
`e1, ..., en`, in emission order, each with the argument it was emitted
with; when `es` is not empty the call returns 0 and leaves the queue empty. -/
theorem fifo_dispatch_order (prog : Program) (h : asyncevent_t) (heap : Heap)
    (es : List (Int × VoidPtr)) (fuel : Nat)
    (hempty : h.hlist = []) (hlock : lock_free h)
    (hbound : ∀ e ∈ es, in_table e.1 ∧ (h.map e.1).func ≠ 0)
    (hroom : es.length ≤ heap.room)
    (hsilent : ∀ e ∈ es, prog (h.map e.1).func e.2 = [])
    (hfuel : es.length < fuel) :
    (async_event_process prog fuel (emit_each es (some h) heap).1
        (emit_each es (some h) heap).2).calls.map (fun c => (c.func, c.node.args)) =
      es.map (fun e => ((h.map e.1).func, e.2)) ∧
    (es ≠ [] →
      (async_event_process prog fuel (emit_each es (some h) heap).1
        (emit_each es (some h) heap).2).status = Status.returned 0 ∧
      (async_event_process prog fuel (emit_each es (some h) heap).1
        (emit_each es (some h) heap).2).handle.map (fun h2 => h2.hlist) = some []) := by
  rw [emit_each_spec es h heap hlock
    (fun e he => ⟨in_table_accepted e.1 (hbound e he).1, (hbound e he).2⟩) hroom]
  simp only [hempty, List.nil_append]
  cases es with
  | nil =>
    rw [process_waits prog fuel _ _ (Or.inr rfl)]
    simp
  | cons e rest =>
    have hne : ({ hlist := nodes_of heap.brk (e :: rest), map := h.map } : asyncevent_t).hlist
        ≠ [] := by simp [nodes_of]
    have hs := sound_nodes_of h heap (e :: rest) hempty (fun e2 h2 => (hbound e2 h2).2)
    simp only [hempty, List.nil_append] at hs
    have hl2 : lock_free
        ({ hlist := nodes_of heap.brk (e :: rest), map := h.map } : asyncevent_t) := hlock
    rw [process_unfold prog fuel _ _ hne hl2]
    have hlen : (nodes_of heap.brk (e :: rest)).length = (e :: rest).length := by
      have := congrArg List.length (addrs_nodes_of (e :: rest) heap.brk)
      simpa [addrs] using this
    rw [process_loop_silent prog (nodes_of heap.brk (e :: rest)) fuel _ [] _ _
      (cursor_start _ _ hs hl2)
      (fun x hx => hsilent (x.sig, x.args) (mem_nodes_of (e :: rest) heap.brk x hx))
      (by rw [hlen]; exact hfuel)]
    refine ⟨?_, fun _ => ⟨rfl, rfl⟩⟩
    simp only [List.nil_append]
    exact nodes_of_calls h.map (e :: rest) heap.brk

/-- Witness of C1: MOVE, PRESS and RELEASE emitted in that order on the
handle of main.c. -/
theorem fifo_dispatch_order_witness :
    (async_event_process main_prog 4
        (emit_each [(MOVE, 11), (PRESS, 12), (RELEASE, 13)] (some main_struct) main_heap).1
        (emit_each [(MOVE, 11), (PRESS, 12), (RELEASE, 13)] (some main_struct)
          main_heap).2).calls.map (fun c => (c.func, c.node.args)) =
      [(event_move_func, 11), (event_press_func, 12), (event_release_func, 13)] ∧
    (async_event_process main_prog 4
        (emit_each [(MOVE, 11), (PRESS, 12), (RELEASE, 13)] (some main_struct) main_heap).1
        (emit_each [(MOVE, 11), (PRESS, 12), (RELEASE, 13)] (some main_struct)
          main_heap).2).status = Status.returned 0 :=
  ⟨(fifo_dispatch_order main_prog main_struct main_heap
      [(MOVE, 11), (PRESS, 12), (RELEASE, 13)] 4
      rfl (by decide) (by decide) (by decide) (by decide) (by decide)).1,
   ((fifo_dispatch_order main_prog main_struct main_heap
      [(MOVE, 11), (PRESS, 12), (RELEASE, 13)] 4
      rfl (by decide) (by decide) (by decide) (by decide) (by decide)).2 (by decide)).1⟩

/-- C2 (priority). On a sound handle whose queue holds a pending event `X`
(after the nodes `pre`), when an event `Y` is then emitted successfully with
a non-zero priority, the next `async_event_process` call invokes `Y`'s
callback first and `X`'s callback later, after those of `pre`, whatever the
callbacks emit meanwhile. -/
theorem priority_event_runs_first (prog : Program) (h : asyncevent_t) (heap : Heap)
    (pre post : List eventlist_t) (X : eventlist_t) (priority sig : Int) (args : VoidPtr)
    (fuel : Nat)
    (hs : Sound h heap) (hX : h.hlist = pre ++ X :: post) (hp : priority ≠ 0)
    (hemit : (async_event_emit (some h) priority sig args heap).1 = Status.returned 0)
    (hfuel : pre.length + 2 ≤ fuel) :
    ∃ later,
      (async_event_process prog fuel (async_event_emit (some h) priority sig args heap).2.1
          (async_event_emit (some h) priority sig args heap).2.2).calls =
        { func := (h.map sig).func, node := { args := args, sig := sig, list := heap.brk } } ::
          (pre.map (call_of h.map) ++ { func := (h.map X.sig).func, node := X } :: later) := by
  obtain ⟨hr, hb, hroom, hl⟩ := emit_zero_iff h heap priority sig args hemit
  rw [emit_ok h heap priority sig args hr hb hroom hl]
  simp only [hp, ne_eq, not_false_eq_true, if_true]
  have hs2 := sound_cons h heap sig args hs hb
  obtain ⟨D, h2, _, d2, _, _, _, d6, _, _, _, _⟩ :=
    process_spec prog fuel _ _ hs2 (by simp) hl
  rw [d2]
  simp only [hX] at d6
  have e1 : fuel = (pre.length + 2) + (fuel - (pre.length + 2)) := by omega
  have d7 := congrArg (List.take (pre.length + 2)) d6
  rw [List.take_take, List.take_take] at d7
  have m1 : min (pre.length + 2)
      ({ args := args, sig := sig, list := heap.brk } :: (pre ++ X :: post)).length
      = pre.length + 2 := by
    simp
  have m2 : min (pre.length + 2) fuel = pre.length + 2 := by omega
  rw [m1, m2] at d7
  have t1 : List.take (pre.length + 2)
      ({ args := args, sig := sig, list := heap.brk } :: (pre ++ X :: post)) =
      { args := args, sig := sig, list := heap.brk } :: (pre ++ [X]) := by
    rw [List.take_succ_cons]
    congr 1
    have e2 : pre ++ X :: post = (pre ++ [X]) ++ post := by simp
    rw [e2, List.take_append_of_le_length (by simp)]
    exact List.take_of_length_le (by simp)
  rw [t1] at d7
  refine ⟨(D.drop (pre.length + 2)).map (call_of h.map), ?_⟩
  have e3 : D = List.take (pre.length + 2) D ++ List.drop (pre.length + 2) D :=
    (List.take_append_drop _ _).symm
  rw [e3, d7]
  simp [call_of]

/-- Witness of C2: on the handle of main.c with a pending MOVE event, CLICK
is emitted with priority 1. -/
theorem priority_event_runs_first_witness :
    ∃ later,
      (async_event_process main_prog 2
          (async_event_emit (some pending_struct) 1 CLICK 12 main_heap).2.1
          (async_event_emit (some pending_struct) 1 CLICK 12 main_heap).2.2).calls =
        { func := (pending_struct.map CLICK).func,
          node := { args := 12, sig := CLICK, list := main_heap.brk } } ::
          (([] : List eventlist_t).map (call_of pending_struct.map) ++
            { func := (pending_struct.map MOVE).func,
              node := { args := 11, sig := MOVE, list := 999 } } :: later) :=
  priority_event_runs_first main_prog pending_struct main_heap
    [] [] { args := 11, sig := MOVE, list := 999 } 1 CLICK 12 2
    (by unfold Sound; decide)
    rfl (by decide) (by decide) (by decide)

/-- C3 (re-binding is rejected). When the slot of an accepted signal holds
the callback `f`, `async_event_bind` with another non-null callback `g`
returns -3 and leaves the handle (registry and queue) as it was, and every
dispatch of that signal by a later `async_event_process` call invokes `f`,
never `g`. -/
theorem rebind_rejected (h : asyncevent_t) (sig : Int) (f g : FuncPtr)
    (hr : sig_accepted sig) (hf : (h.map sig).func = f) (hf0 : f ≠ 0) (hg0 : g ≠ 0)
    (hgf : g ≠ f) :
    async_event_bind (some h) sig g = (-3, some h) ∧
    ∀ (prog : Program) (fuel : Nat) (heap : Heap), Sound h heap →
      ∀ c ∈ (async_event_process prog fuel (async_event_bind (some h) sig g).2 heap).calls,
        c.node.sig = sig → c.func = f ∧ c.func ≠ g := by
  have hbind : async_event_bind (some h) sig g = (-3, some h) := by
    unfold sig_accepted at hr
    have hne : (h.map sig).func ≠ 0 := by rw [hf]; exact hf0
    simp only [async_event_bind]
    rw [if_neg hg0, if_neg hr, if_pos hne]
  refine ⟨hbind, ?_⟩
  intro prog fuel heap hs c hc hsig
  rw [hbind] at hc
  by_cases hq : ¬ lock_free h ∨ h.hlist = []
  · rw [process_waits prog fuel h heap hq] at hc
    simp at hc
  · have hlock : lock_free h := by
      by_contra hc2; exact hq (Or.inl hc2)
    have hne : h.hlist ≠ [] := fun hc2 => hq (Or.inr hc2)
    obtain ⟨D, h2, _, d2, _, _, _, _, _, _, _, _⟩ := process_spec prog fuel h heap hs hne hlock
    rw [d2] at hc
    obtain ⟨x, _, hx⟩ := List.mem_map.mp hc
    have hfun : c.func = (h.map c.node.sig).func := by
      rw [← hx]; rfl
    rw [hsig, hf] at hfun
    exact ⟨hfun, by rw [hfun]; exact fun e => hgf e.symm⟩

/-- Witness of C3: on the handle of main.c, CLICK is bound again, to
`event_move_func`. -/
theorem rebind_rejected_witness :
    async_event_bind (some main_struct) CLICK event_move_func = (-3, some main_struct) ∧
    ∀ (prog : Program) (fuel : Nat) (heap : Heap), Sound main_struct heap →
      ∀ c ∈ (async_event_process prog fuel
          (async_event_bind (some main_struct) CLICK event_move_func).2 heap).calls,
        c.node.sig = CLICK → c.func = event_click_func ∧ c.func ≠ event_move_func :=
  rebind_rejected main_struct CLICK event_click_func event_move_func
    (by decide) rfl (by decide) (by decide) (by decide)

/-- C4 (out of range). For an existing handle, a non-null callback and a
signal with `sig < 0` or `sig > 1024`, `async_event_bind` returns -2 and the
handle, registry and queue, is left as it was. -/
theorem bind_out_of_range (h : asyncevent_t) (sig : Int) (func : FuncPtr)
    (hf : func ≠ 0) (hr : sig < 0 ∨ sig > 1024) :
    async_event_bind (some h) sig func = (-2, some h) := by
  simp only [async_event_bind]
  rw [if_neg hf, if_pos hr]

/-- Witness of C4: signal 1025 on the handle of main.c. -/
theorem bind_out_of_range_witness :
    async_event_bind (some main_struct) 1025 event_click_func = (-2, some main_struct) :=
  bind_out_of_range main_struct 1025 event_click_func (by decide) (by decide)

/-- C5 (emit fails atomically). `async_event_emit` returns -1 for a null
handle, -2 for a signal outside the accepted range and -3 for an accepted
signal whose slot holds no callback; in each case the handle (queue and
registry) and the allocator are left as they were. -/
theorem emit_fails_atomically (h : asyncevent_t) (priority sig : Int) (args : VoidPtr)
    (heap : Heap) :
    async_event_emit none priority sig args heap = (Status.returned (-1), none, heap) ∧
    ((sig < 0 ∨ sig > 1024) →
      async_event_emit (some h) priority sig args heap =
        (Status.returned (-2), some h, heap)) ∧
    (sig_accepted sig → (h.map sig).func = 0 →
      async_event_emit (some h) priority sig args heap =
        (Status.returned (-3), some h, heap)) := by
  refine ⟨rfl, ?_, ?_⟩
  · intro hr
    simp only [async_event_emit]
    rw [if_pos hr]
  · intro hr hb
    unfold sig_accepted at hr
    simp only [async_event_emit]
    rw [if_neg hr, if_pos hb]

/-- Witness of C5: signal 2000 is out of range, signal 7 is not bound in
main.c. -/
theorem emit_fails_atomically_witness :
    async_event_emit none 1 7 5 main_heap = (Status.returned (-1), none, main_heap) ∧
    async_event_emit (some pending_struct) 1 2000 5 main_heap =
      (Status.returned (-2), some pending_struct, main_heap) ∧
    async_event_emit (some pending_struct) 1 7 5 main_heap =
      (Status.returned (-3), some pending_struct, main_heap) :=
  ⟨(emit_fails_atomically pending_struct 1 7 5 main_heap).1,
   (emit_fails_atomically pending_struct 1 2000 5 main_heap).2.1 (by decide),
   (emit_fails_atomically pending_struct 1 7 5 main_heap).2.2 (by decide) rfl⟩

/-- C6 (drain without re-entrancy). On a sound handle with a free mutex whose
non-empty queue holds `q1, ..., qn` and whose callbacks make no emit call, one
`async_event_process` call returns 0, makes exactly the `n` invocations
"callback bound to `qi`'s signal, applied to `qi`'s argument" in queue order,
and leaves the queue empty and the registry unchanged. -/
theorem drain_without_reentrancy (prog : Program) (h : asyncevent_t) (heap : Heap)
    (fuel : Nat)
    (hs : Sound h heap) (hlock : lock_free h) (hq : h.hlist ≠ [])
    (hsilent : ∀ x ∈ h.hlist, prog (h.map x.sig).func x.args = [])
    (hfuel : h.hlist.length < fuel) :
    (async_event_process prog fuel (some h) heap).status = Status.returned 0 ∧
    (async_event_process prog fuel (some h) heap).calls = h.hlist.map (call_of h.map) ∧
    (async_event_process prog fuel (some h) heap).calls.length = h.hlist.length ∧
    (async_event_process prog fuel (some h) heap).handle = some { hlist := [], map := h.map } ∧
    (async_event_process prog fuel (some h) heap).emitted = [] := by
  rw [process_unfold prog fuel h heap hq hlock]
  rw [process_loop_silent prog h.hlist fuel _ [] _ _ (cursor_start h heap hs hlock) hsilent
    hfuel]
  simp

/-- Witness of C6: the scenario CLICK then MOVE with the arguments 11 and 12:
the callback 201 runs on 11, then the callback 202 on 12, and the queue is
empty afterwards. -/
theorem drain_without_reentrancy_witness :
    (async_event_process quiet_prog 3 (some scenario_struct) scenario_heap).status =
      Status.returned 0 ∧
    (async_event_process quiet_prog 3 (some scenario_struct) scenario_heap).calls =
      [{ func := 201, node := { args := 11, sig := CLICK, list := 1000 } },
       { func := 202, node := { args := 12, sig := MOVE, list := 1001 } }] ∧
    (async_event_process quiet_prog 3 (some scenario_struct) scenario_heap).calls.length = 2 ∧
    (async_event_process quiet_prog 3 (some scenario_struct) scenario_heap).handle =
      some { hlist := [], map := scenario_struct.map } ∧
    (async_event_process quiet_prog 3 (some scenario_struct) scenario_heap).emitted = [] :=
  drain_without_reentrancy quiet_prog scenario_struct scenario_heap 3
    (by unfold Sound; decide) (by decide) (by decide) (by decide) (by decide)

/-- C8 (no lost or duplicated events). From a sound handle, after any
sequence of emit calls and `async_event_process` calls (each run for any
number of iterations, callbacks emitting what they like), the nodes
dispatched so far followed by the nodes still queued are a rearrangement of
the nodes ever queued (those queued at the start and those emitted since),
these nodes are pairwise distinct, and every invocation went to the callback
bound to the node's signal: each event is either queued once or dispatched
once, never both, never neither, never twice. -/
theorem no_lost_or_duplicated_events (prog : Program) (ops : List Op) (h : asyncevent_t)
    (heap : Heap) (hs : Sound h heap) :
    (dispatched (run_ops prog ops
        { handle := h, heap := heap, calls := [], emitted := h.hlist }).calls ++
      (run_ops prog ops
        { handle := h, heap := heap, calls := [], emitted := h.hlist }).handle.hlist).Perm
      (run_ops prog ops
        { handle := h, heap := heap, calls := [], emitted := h.hlist }).emitted ∧
    (addrs (run_ops prog ops
        { handle := h, heap := heap, calls := [], emitted := h.hlist }).emitted).Nodup ∧
    (∀ c ∈ (run_ops prog ops
        { handle := h, heap := heap, calls := [], emitted := h.hlist }).calls,
      c.func = (h.map c.node.sig).func) := by
  have h0 : Conserved { handle := h, heap := heap, calls := [], emitted := h.hlist } := by
    refine ⟨hs, ?_, hs.1, hs.2.1, ?_⟩
    · simp [dispatched]
    · intro c hc; simp at hc
  have hfin := run_ops_conserved prog ops _ h0
  have hmap := run_ops_map prog ops
    { handle := h, heap := heap, calls := [], emitted := h.hlist } h0
  refine ⟨hfin.2.1, hfin.2.2.1, ?_⟩
  intro c hc
  have := hfin.2.2.2.2 c hc
  rw [hmap] at this
  exact this

/-- Witness of C8: on the handle of main.c, CLICK is emitted, then two
drains are run. -/
theorem no_lost_or_duplicated_events_witness :
    (dispatched (run_ops main_prog [Op.emit 0 CLICK 7, Op.process 5, Op.process 5]
        { handle := main_struct, heap := main_heap, calls := [],
          emitted := main_struct.hlist }).calls ++
      (run_ops main_prog [Op.emit 0 CLICK 7, Op.process 5, Op.process 5]
        { handle := main_struct, heap := main_heap, calls := [],
          emitted := main_struct.hlist }).handle.hlist).Perm
      (run_ops main_prog [Op.emit 0 CLICK 7, Op.process 5, Op.process 5]
        { handle := main_struct, heap := main_heap, calls := [],
          emitted := main_struct.hlist }).emitted ∧
    (addrs (run_ops main_prog [Op.emit 0 CLICK 7, Op.process 5, Op.process 5]
        { handle := main_struct, heap := main_heap, calls := [],
          emitted := main_struct.hlist }).emitted).Nodup ∧
    (∀ c ∈ (run_ops main_prog [Op.emit 0 CLICK 7, Op.process 5, Op.process 5]
        { handle := main_struct, heap := main_heap, calls := [],
          emitted := main_struct.hlist }).calls,
      c.func = (main_struct.map c.node.sig).func) :=
  no_lost_or_duplicated_events main_prog [Op.emit 0 CLICK 7, Op.process 5, Op.process 5]
    main_struct main_heap (by unfold Sound; decide)

/-- C9 (teardown). On an existing handle with a free mutex, `N >= 0` queued
nodes (distinct allocations) and any bindings of the table,
`async_event_destory` returns 0, makes no callback invocation, unlinks and
frees each of the `N` nodes once, in queue order, and frees the handle; on a
null handle it returns -1 and touches nothing. -/
theorem teardown_frees_all (h : asyncevent_t) (heap : Heap) (fuel : Nat)
    (hlock : lock_free h) (hn : (addrs h.hlist).Nodup) (hfuel : h.hlist.length < fuel) :
    ((async_event_destory fuel (some h) heap).status = Status.returned 0 ∧
     (async_event_destory fuel (some h) heap).calls = [] ∧
     (async_event_destory fuel (some h) heap).freed = h.hlist ∧
     (async_event_destory fuel (some h) heap).queue = [] ∧
     (async_event_destory fuel (some h) heap).heap =
       { brk := heap.brk, room := heap.room + h.hlist.length } ∧
     (async_event_destory fuel (some h) heap).handle.isNone = true) ∧
    ((async_event_destory fuel none heap).status = Status.returned (-1) ∧
     (async_event_destory fuel none heap).calls = [] ∧
     (async_event_destory fuel none heap).freed = [] ∧
     (async_event_destory fuel none heap).heap = heap) := by
  refine ⟨?_, rfl, rfl, rfl, rfl⟩
  have hl := destory_loop_spec h.hlist fuel heap [] hn hfuel
  simp only [async_event_destory]
  rw [if_neg (lock_taken h hlock)]
  have e : list_next h.hlist none = list_first h.hlist := rfl
  rw [e, hl]
  simp

/-- Witness of C9: teardown of the scenario handle with its two queued
events, and teardown of a handle with no binding and no queued event. -/
theorem teardown_frees_all_witness :
    (((async_event_destory 3 (some scenario_struct) scenario_heap).status = Status.returned 0 ∧
     (async_event_destory 3 (some scenario_struct) scenario_heap).calls = [] ∧
     (async_event_destory 3 (some scenario_struct) scenario_heap).freed =
       scenario_struct.hlist ∧
     (async_event_destory 3 (some scenario_struct) scenario_heap).queue = [] ∧
     (async_event_destory 3 (some scenario_struct) scenario_heap).heap =
       { brk := scenario_heap.brk, room := scenario_heap.room + scenario_struct.hlist.length } ∧
     (async_event_destory 3 (some scenario_struct) scenario_heap).handle.isNone = true) ∧
    ((async_event_destory 3 none scenario_heap).status = Status.returned (-1) ∧
     (async_event_destory 3 none scenario_heap).calls = [] ∧
     (async_event_destory 3 none scenario_heap).freed = [] ∧
     (async_event_destory 3 none scenario_heap).heap = scenario_heap)) ∧
    (async_event_destory 1 (some blank_handle) main_heap).status = Status.returned 0 ∧
    (async_event_destory 1 (some blank_handle) main_heap).handle.isNone = true :=
  ⟨teardown_frees_all scenario_struct scenario_heap 3 (by decide) (by decide) (by decide),
   (teardown_frees_all blank_handle main_heap 1 (by decide) (by decide) (by decide)).1.1,
   (teardown_frees_all blank_handle main_heap 1 (by decide) (by decide)
     (by decide)).1.2.2.2.2.2⟩

/-- C10, counterexample. A null callback on an existing handle (accepted,
unbound signal) and a null handle give the same result -1. -/
theorem bind_null_callback_counterexample :
    (async_event_bind (some blank_handle) CLICK 0).1 = -1 ∧
    (async_event_bind none CLICK event_click_func).1 = -1 ∧
    (async_event_bind (some blank_handle) CLICK 0).1 =
      (async_event_bind none CLICK event_click_func).1 := by
  decide

/-- C10, amended. `async_event_bind` returns -1 for a null handle and also
for a null callback, -2 for an out-of-range signal (handle and callback
present) and -3 for an occupied slot (handle and callback present, signal
accepted); the three values -1, -2, -3 are pairwise different, and in each
of these cases the handle is left as it was. -/
theorem bind_error_results (h : asyncevent_t) (sig : Int) (func : FuncPtr) :
    async_event_bind none sig func = (-1, none) ∧
    (func = 0 → async_event_bind (some h) sig func = (-1, some h)) ∧
    (func ≠ 0 → (sig < 0 ∨ sig > 1024) → async_event_bind (some h) sig func = (-2, some h)) ∧
    (func ≠ 0 → sig_accepted sig → (h.map sig).func ≠ 0 →
      async_event_bind (some h) sig func = (-3, some h)) ∧
    ((-1 : Int) ≠ -2 ∧ (-1 : Int) ≠ -3 ∧ (-2 : Int) ≠ -3) := by
  refine ⟨rfl, ?_, ?_, ?_, by decide⟩
  · intro hf
    simp only [async_event_bind]
    rw [if_pos hf]
  · intro hf hr
    simp only [async_event_bind]
    rw [if_neg hf, if_pos hr]
  · intro hf hr hb
    unfold sig_accepted at hr
    simp only [async_event_bind]
    rw [if_neg hf, if_neg hr, if_pos hb]

/-- Witness of C10 as amended, on the handle of main.c. -/
theorem bind_error_results_witness :
    async_event_bind none CLICK event_move_func = (-1, none) ∧
    async_event_bind (some main_struct) 7 0 = (-1, some main_struct) ∧
    async_event_bind (some main_struct) 1025 event_move_func = (-2, some main_struct) ∧
    async_event_bind (some main_struct) CLICK event_move_func = (-3, some main_struct) :=
  ⟨(bind_error_results main_struct CLICK event_move_func).1,
   (bind_error_results main_struct 7 0).2.1 rfl,
   (bind_error_results main_struct 1025 event_move_func).2.2.1 (by decide) (by decide),
   (bind_error_results main_struct CLICK event_move_func).2.2.2.1 (by decide) (by decide)
     (by decide)⟩

/-- C11 (emit success postcondition). For an existing handle with queue `q`
and a free mutex, a signal of the table whose slot holds a callback and an
allocator with room, `async_event_emit` returns 0; the queue becomes the new
node followed by `q` when the priority is non-zero and `q` followed by the
new node when it is zero; the node stores exactly the signal and the argument
passed, `q` keeps its order, and the registry is unchanged. -/
theorem emit_success_postcondition (h : asyncevent_t) (heap : Heap) (priority sig : Int)
    (args : VoidPtr)
    (hlock : lock_free h) (hr : in_table sig) (hb : (h.map sig).func ≠ 0)
    (hroom : heap.room ≠ 0) :
    (priority ≠ 0 →
      async_event_emit (some h) priority sig args heap =
        (Status.returned 0,
          some { hlist := { args := args, sig := sig, list := heap.brk } :: h.hlist,
                 map := h.map },
          { brk := heap.brk + 1, room := heap.room - 1 })) ∧
    (priority = 0 →
      async_event_emit (some h) priority sig args heap =
        (Status.returned 0,
          some { hlist := h.hlist ++ [{ args := args, sig := sig, list := heap.brk }],
                 map := h.map },
          { brk := heap.brk + 1, room := heap.room - 1 })) := by
  have he := emit_ok h heap priority sig args (in_table_accepted sig hr) hb hroom hlock
  constructor
  · intro hp
    rw [he, if_pos hp]
  · intro hp
    rw [he, if_neg (by simpa using hp)]

/-- Witness of C11: CLICK emitted on the handle of main.c with a pending
MOVE event, once with priority 1 and once with priority 0. -/
theorem emit_success_postcondition_witness :
    async_event_emit (some pending_struct) 1 CLICK 12 main_heap =
      (Status.returned 0,
        some { hlist := { args := 12, sig := CLICK, list := main_heap.brk } ::
                 pending_struct.hlist,
               map := pending_struct.map },
        { brk := main_heap.brk + 1, room := main_heap.room - 1 }) ∧
    async_event_emit (some pending_struct) 0 CLICK 12 main_heap =
      (Status.returned 0,
        some { hlist := pending_struct.hlist ++
                 [{ args := 12, sig := CLICK, list := main_heap.brk }],
               map := pending_struct.map },
        { brk := main_heap.brk + 1, room := main_heap.room - 1 }) :=
  ⟨(emit_success_postcondition pending_struct main_heap 1 CLICK 12
      (by decide) (by decide) (by decide) (by decide)).1 (by decide),
   (emit_success_postcondition pending_struct main_heap 0 CLICK 12
      (by decide) (by decide) (by decide) (by decide)).2 rfl⟩

theorem emit_not_unbound (h : asyncevent_t) (heap : Heap) (priority sig : Int)
    (args : VoidPtr) (hr : sig_accepted sig) (hb : (h.map sig).func ≠ 0) :
    (async_event_emit (some h) priority sig args heap).1 ≠ Status.returned (-3) := by
  by_cases h3 : heap.room = 0
  · unfold sig_accepted at hr
    simp only [async_event_emit, malloc]
    rw [if_neg hr, if_neg hb, if_pos h3]
    simp
  · by_cases hl : lock_free h
    · rw [emit_ok h heap priority sig args hr hb h3 hl]
      simp
    · rw [emit_waits h heap priority sig args hr hb h3 hl]
      simp

/-- C12 (bind success and frame). For an existing handle, a non-null callback
`func` and an accepted signal whose slot is empty, `async_event_bind`
returns 0; afterwards the slot of the signal holds `func`, every other slot
is as before, the queue is as before, and no emit of that signal returns
-3. -/
theorem bind_success_frame (h : asyncevent_t) (sig : Int) (func : FuncPtr)
    (hf : func ≠ 0) (hr : sig_accepted sig) (he : (h.map sig).func = 0) :
    ∃ h2, async_event_bind (some h) sig func = (0, some h2) ∧
      h2.map sig = { func := func, sig := sig } ∧
      (∀ i, i ≠ sig → h2.map i = h.map i) ∧
      h2.hlist = h.hlist ∧
      ∀ (priority : Int) (args : VoidPtr) (heap : Heap),
        (async_event_emit (some h2) priority sig args heap).1 ≠ Status.returned (-3) := by
  have hacc := hr
  unfold sig_accepted at hr
  refine ⟨{ hlist := h.hlist,
            map := fun i => if i = sig then { func := func, sig := sig } else h.map i },
    ?_, ?_, ?_, rfl, ?_⟩
  · simp only [async_event_bind]
    rw [if_neg hf, if_neg hr, if_neg (by simpa using he)]
  · simp
  · intro i hi
    simp [hi]
  · intro priority args heap
    exact emit_not_unbound _ heap priority sig args hacc (by simpa using hf)

/-- Witness of C12: signal 7, not bound in main.c, is bound to the callback
201. -/
theorem bind_success_frame_witness :
    ∃ h2, async_event_bind (some main_struct) 7 201 = (0, some h2) ∧
      h2.map 7 = { func := 201, sig := 7 } ∧
      (∀ i, i ≠ 7 → h2.map i = main_struct.map i) ∧
      h2.hlist = main_struct.hlist ∧
      ∀ (priority : Int) (args : VoidPtr) (heap : Heap),
        (async_event_emit (some h2) priority 7 args heap).1 ≠ Status.returned (-3) :=
  bind_success_frame main_struct 7 201 (by decide) (by decide) rfl

/-- C15, the code at the failing input. Signal 1024 passes the range check
of `async_event_bind` and `async_event_emit` although it designates no slot
of the 1024-slot table: bind goes on to store at index 1024 and returns 0,
emit goes on to read index 1024. What index 1024 designates is the mutex:
once bind has stored there, an emit of CLICK, a drain and a teardown on the
handle of main.c all wait for the mutex. -/
theorem range_check_admits_1024 :
    sig_accepted 1024 ∧ ¬ in_table 1024 ∧
    (async_event_bind (some blank_handle) 1024 event_click_func).1 = 0 ∧
    (async_event_bind (some blank_handle) 1024 event_click_func).2.map
      (fun h => (h.map 1024).func) = some event_click_func ∧
    (async_event_emit (some blank_handle) 0 1024 5 main_heap).1 = Status.returned (-3) ∧
    (async_event_emit (async_event_bind (some clicked_struct) 1024 event_click_func).2
      0 CLICK 7 clicked_heap).1 = Status.blocked ∧
    (async_event_process main_prog 5
      (async_event_bind (some clicked_struct) 1024 event_click_func).2
      clicked_heap).status = Status.blocked ∧
    (async_event_destory 5
      (async_event_bind (some clicked_struct) 1024 event_click_func).2
      clicked_heap).status = Status.blocked := by
  decide

/-- C16, the code at the failing input. `memset(handle, 0, sizeof(handle))`
clears one pointer-sized word, so the table keeps what the block held: on the
handle created from `dirty_block` the queue is empty but the slot of signal 1
is not, `async_event_emit` of signal 1 returns 0 instead of -3 and the first
`async_event_bind` of signal 1 returns -3 instead of 0. -/
theorem fresh_handle_keeps_block :
    (create_async_event (some dirty_block)).map (fun h => h.hlist) = some [] ∧
    (create_async_event (some dirty_block)).map (fun h => (h.map 1).func) = some 77 ∧
    (async_event_emit (create_async_event (some dirty_block)) 0 1 5 main_heap).1 =
      Status.returned 0 ∧
    (async_event_bind (create_async_event (some dirty_block)) 1 event_click_func).1 = -3 := by
  decide

/-! ## States the interface can reach -/

theorem mem_list_del (a : Addr) (x : eventlist_t) :
    ∀ l : List eventlist_t, x ∈ list_del a l → x ∈ l := by
  intro l
  induction l with
  | nil => intro hx; simp [list_del] at hx
  | cons y ys ih =>
    intro hx
    simp only [list_del] at hx
    by_cases hy : y.list = a
    · rw [if_pos hy] at hx
      exact List.mem_cons_of_mem _ hx
    · rw [if_neg hy] at hx
      rcases List.mem_cons.mp hx with rfl | hx2
      · exact List.mem_cons_self _ _
      · exact List.mem_cons_of_mem _ (ih hx2)

theorem emit_ready (h : asyncevent_t) (heap : Heap) (priority sig : Int) (args : VoidPtr)
    (hs : Sound h heap) (ha : ∀ x ∈ h.hlist, sig_accepted x.sig) :
    ∃ h2, (async_event_emit (some h) priority sig args heap).2.1 = some h2 ∧
      Sound h2 (async_event_emit (some h) priority sig args heap).2.2 ∧
      (∀ x ∈ h2.hlist, sig_accepted x.sig) := by
  rcases emit_trichotomy h heap priority sig args with
    ⟨r, _, _, he⟩ | ⟨hr, hb, hroom, hl⟩ | ⟨hr, hb, hroom, hl⟩
  · rw [he]
    exact ⟨h, rfl, hs, ha⟩
  · rw [emit_waits h heap priority sig args hr hb hroom hl]
    exact ⟨h, rfl, ⟨hs.1, fun x hx => lt_of_lt_of_le (hs.2.1 x hx) (Nat.le_succ _), hs.2.2⟩, ha⟩
  · rw [emit_ok h heap priority sig args hr hb hroom hl]
    refine ⟨_, rfl, ?_, ?_⟩
    · by_cases hp : priority ≠ 0
      · simp only [if_pos hp]
        exact sound_cons h heap sig args hs hb
      · simp only [if_neg hp]
        have hg := sound_grown [] h.hlist [] [{ args := args, sig := sig, list := heap.brk }]
          h.map heap.brk (heap.brk + 1) (by simpa using hs.1) (by simpa using hs.2.1)
          (by simpa using hs.2.2) (Nat.le_succ _)
          (by
            intro y hy
            simp only [List.nil_append, List.mem_singleton] at hy
            subst hy
            exact ⟨le_refl _, Nat.lt_succ_self _, hb⟩)
          (by simp [addrs])
        simpa [Sound] using hg
    · intro x hx
      by_cases hp : priority ≠ 0
      · simp only [if_pos hp] at hx
        rcases List.mem_cons.mp hx with rfl | hx2
        · exact hr
        · exact ha x hx2
      · simp only [if_neg hp] at hx
        rcases List.mem_append.mp hx with hx2 | hx2
        · exact ha x hx2
        · simp only [List.mem_singleton] at hx2
          subst hx2
          exact hr

theorem bind_ready (h : asyncevent_t) (heap : Heap) (sig : Int) (func : FuncPtr)
    (hs : Sound h heap) (ha : ∀ x ∈ h.hlist, sig_accepted x.sig) :
    ∃ h2, (async_event_bind (some h) sig func).2 = some h2 ∧ Sound h2 heap ∧
      (∀ x ∈ h2.hlist, sig_accepted x.sig) := by
  simp only [async_event_bind]
  by_cases h0 : func = 0
  · rw [if_pos h0]; exact ⟨h, rfl, hs, ha⟩
  · rw [if_neg h0]
    by_cases h1 : sig < 0 ∨ sig > 1024
    · rw [if_pos h1]; exact ⟨h, rfl, hs, ha⟩
    · rw [if_neg h1]
      by_cases h2 : (h.map sig).func ≠ 0
      · rw [if_pos h2]; exact ⟨h, rfl, hs, ha⟩
      · rw [if_neg h2]
        refine ⟨_, rfl, ⟨hs.1, hs.2.1, ?_⟩, ha⟩
        intro x hx
        by_cases hx2 : x.sig = sig
        · simp only [hx2, if_true]; exact h0
        · simp only [hx2, if_false]; exact hs.2.2 x hx

theorem emit_call_accepted (c : EmitCall) (w : World)
    (ha : ∀ x ∈ w.handle.hlist, sig_accepted x.sig) :
    ∀ x ∈ (emit_call c w).handle.hlist, sig_accepted x.sig := by
  unfold emit_call
  rcases emit_trichotomy w.handle w.heap c.priority c.sig c.args with
    ⟨r, _, _, he⟩ | ⟨hr, hb, hroom, hl⟩ | ⟨hr, hb, hroom, hl⟩
  · rw [he]
    exact ha
  · rw [emit_waits w.handle w.heap c.priority c.sig c.args hr hb hroom hl]
    exact ha
  · rw [emit_ok w.handle w.heap c.priority c.sig c.args hr hb hroom hl]
    intro x hx
    by_cases hp : c.priority ≠ 0
    · simp only [if_pos hp] at hx
      rcases List.mem_cons.mp hx with rfl | hx2
      · exact hr
      · exact ha x hx2
    · simp only [if_neg hp] at hx
      rcases List.mem_append.mp hx with hx2 | hx2
      · exact ha x hx2
      · simp only [List.mem_singleton] at hx2
        subst hx2
        exact hr

theorem run_emits_accepted (cs : List EmitCall) :
    ∀ w : World, (∀ x ∈ w.handle.hlist, sig_accepted x.sig) →
    ∀ x ∈ (run_emits cs w).handle.hlist, sig_accepted x.sig := by
  induction cs with
  | nil => intro w ha; exact ha
  | cons c cs ih =>
    intro w ha
    exact ih (emit_call c w) (emit_call_accepted c w ha)

theorem process_loop_accepted (prog : Program) :
    ∀ (fuel : Nat) (pos n : Option Addr) (w : World),
    (∀ x ∈ w.handle.hlist, sig_accepted x.sig) →
    ∀ x ∈ (process_loop prog fuel pos n w).2.handle.hlist, sig_accepted x.sig := by
  intro fuel
  induction fuel with
  | zero => intro pos n w ha; simpa [process_loop] using ha
  | succ k ih =>
    intro pos n w ha
    cases pos with
    | none => simpa [process_loop] using ha
    | some p =>
      simp only [process_loop]
      by_cases hl : USE_MUTI_THREAD ≠ 0 ∧ ¬ lock_free w.handle
      · rw [if_pos hl]; exact ha
      · rw [if_neg hl]
        cases he : list_entry p w.handle.hlist with
        | none => simpa using ha
        | some node =>
          simp only []
          have hdel : ∀ x ∈ list_del p w.handle.hlist, sig_accepted x.sig :=
            fun x hx => ha x (mem_list_del p x _ hx)
          by_cases hf : (w.handle.map node.sig).func = 0
          · rw [if_pos hf]; exact hdel
          · rw [if_neg hf]
            apply ih
            unfold call_func
            exact run_emits_accepted _ _ hdel

theorem process_ready (prog : Program) (fuel : Nat) (h : asyncevent_t) (heap : Heap)
    (hs : Sound h heap) (ha : ∀ x ∈ h.hlist, sig_accepted x.sig) :
    (async_event_process prog fuel (some h) heap).status ≠ Status.fault ∧
    ∃ h2, (async_event_process prog fuel (some h) heap).handle = some h2 ∧
      Sound h2 (async_event_process prog fuel (some h) heap).heap ∧
      (∀ x ∈ h2.hlist, sig_accepted x.sig) := by
  by_cases hq : ¬ lock_free h ∨ h.hlist = []
  · rw [process_waits prog fuel h heap hq]
    exact ⟨by simp, h, rfl, hs, ha⟩
  · have hlock : lock_free h := by
      by_contra hl
      exact hq (Or.inl hl)
    have hq : h.hlist ≠ [] := fun he => hq (Or.inr he)
    obtain ⟨D, h2, d1, _, _, _, d5, _, d7, _, _, _⟩ :=
      process_spec prog fuel h heap hs hq hlock
    refine ⟨?_, h2, d1, d5, ?_⟩
    · rcases d7 with ⟨s1, _⟩ | ⟨s1, _, _⟩
      · rw [s1]; simp
      · rw [s1]; simp
    · rw [process_unfold prog fuel h heap hq hlock] at d1
      simp only [Option.some.injEq] at d1
      rw [← d1]
      exact process_loop_accepted prog fuel _ _
        { handle := h, heap := heap, calls := [], emitted := [] } ha

theorem api_step_ready (prog : Program) (s : asyncevent_t × Heap) (c : ApiCall)
    (hs : Sound s.1 s.2) (ha : ∀ x ∈ s.1.hlist, sig_accepted x.sig) :
    Sound (api_step prog s c).1 (api_step prog s c).2 ∧
    (∀ x ∈ (api_step prog s c).1.hlist, sig_accepted x.sig) := by
  cases c with
  | bind sig func =>
    obtain ⟨h2, e, s2, a2⟩ := bind_ready s.1 s.2 sig func hs ha
    simp only [api_step, e]
    exact ⟨s2, a2⟩
  | emit priority sig args =>
    obtain ⟨h2, e, s2, a2⟩ := emit_ready s.1 s.2 priority sig args hs ha
    simp only [api_step, e]
    exact ⟨s2, a2⟩
  | process fuel =>
    obtain ⟨_, h2, e, s2, a2⟩ := process_ready prog fuel s.1 s.2 hs ha
    simp only [api_step, e]
    exact ⟨s2, a2⟩

theorem api_run_ready (prog : Program) (cs : List ApiCall) :
    ∀ s : asyncevent_t × Heap, Sound s.1 s.2 → (∀ x ∈ s.1.hlist, sig_accepted x.sig) →
    Sound (api_run prog cs s).1 (api_run prog cs s).2 ∧
    (∀ x ∈ (api_run prog cs s).1.hlist, sig_accepted x.sig) := by
  induction cs with
  | nil => intro s hs ha; exact ⟨hs, ha⟩
  | cons c cs ih =>
    intro s hs ha
    have h1 := api_step_ready prog s c hs ha
    exact ih _ h1.1 h1.2

/-- C13 (dispatch never meets an absent binding). In every state reached
from a handle with an empty queue by any sequence of `async_event_bind`,
`async_event_emit` and `async_event_process` calls, every queued event
carries an accepted signal whose slot holds a callback, and a further
`async_event_process` call, run for any number of iterations, never calls a
null pointer. -/
theorem dispatch_never_meets_absent_binding (prog : Program) (cs : List ApiCall)
    (h : asyncevent_t) (heap : Heap) (hempty : h.hlist = []) :
    (∀ x ∈ (api_run prog cs (h, heap)).1.hlist,
      sig_accepted x.sig ∧ ((api_run prog cs (h, heap)).1.map x.sig).func ≠ 0) ∧
    ∀ fuel : Nat,
      (async_event_process prog fuel (some (api_run prog cs (h, heap)).1)
        (api_run prog cs (h, heap)).2).status ≠ Status.fault := by
  have hs0 : Sound h heap := by
    unfold Sound
    rw [hempty]
    simp [addrs]
  have ha0 : ∀ x ∈ h.hlist, sig_accepted x.sig := by
    rw [hempty]; intro x hx; simp at hx
  obtain ⟨hs, ha⟩ := api_run_ready prog cs (h, heap) hs0 ha0
  refine ⟨fun x hx => ⟨ha x hx, hs.2.2 x hx⟩, ?_⟩
  intro fuel
  exact (process_ready prog fuel _ _ hs ha).1

/-- Witness of C13: from the empty table, the binds of main.c, an emit of
CLICK and two drains. -/
theorem dispatch_never_meets_absent_binding_witness :
    (∀ x ∈ (api_run main_prog
        [ApiCall.bind CLICK event_click_func, ApiCall.bind MOVE event_move_func,
         ApiCall.bind PRESS event_press_func, ApiCall.bind RELEASE event_release_func,
         ApiCall.emit 0 CLICK 7, ApiCall.process 5, ApiCall.process 2]
        (blank_handle, main_heap)).1.hlist,
      sig_accepted x.sig ∧ ((api_run main_prog
        [ApiCall.bind CLICK event_click_func, ApiCall.bind MOVE event_move_func,
         ApiCall.bind PRESS event_press_func, ApiCall.bind RELEASE event_release_func,
         ApiCall.emit 0 CLICK 7, ApiCall.process 5, ApiCall.process 2]
        (blank_handle, main_heap)).1.map x.sig).func ≠ 0) ∧
    ∀ fuel : Nat,
      (async_event_process main_prog fuel (some (api_run main_prog
        [ApiCall.bind CLICK event_click_func, ApiCall.bind MOVE event_move_func,
         ApiCall.bind PRESS event_press_func, ApiCall.bind RELEASE event_release_func,
         ApiCall.emit 0 CLICK 7, ApiCall.process 5, ApiCall.process 2]
        (blank_handle, main_heap)).1)
        (api_run main_prog
        [ApiCall.bind CLICK event_click_func, ApiCall.bind MOVE event_move_func,
         ApiCall.bind PRESS event_press_func, ApiCall.bind RELEASE event_release_func,
         ApiCall.emit 0 CLICK 7, ApiCall.process 5, ApiCall.process 2]
        (blank_handle, main_heap)).2).status ≠ Status.fault :=
  dispatch_never_meets_absent_binding main_prog
    [ApiCall.bind CLICK event_click_func, ApiCall.bind MOVE event_move_func,
     ApiCall.bind PRESS event_press_func, ApiCall.bind RELEASE event_release_func,
     ApiCall.emit 0 CLICK 7, ApiCall.process 5, ApiCall.process 2]
    blank_handle main_heap rfl

/-! ## The queue as a function of the emit history -/

theorem emit_sound (h : asyncevent_t) (heap : Heap) (priority sig : Int) (args : VoidPtr)
    (hs : Sound h heap) (hb : (h.map sig).func ≠ 0) :
    Sound { hlist := if priority ≠ 0
              then { args := args, sig := sig, list := heap.brk } :: h.hlist
              else h.hlist ++ [{ args := args, sig := sig, list := heap.brk }],
            map := h.map }
      { brk := heap.brk + 1, room := heap.room - 1 } := by
  by_cases hp : priority ≠ 0
  · simp only [if_pos hp]
    exact sound_cons h heap sig args hs hb
  · simp only [if_neg hp]
    have hg := sound_grown [] h.hlist [] [{ args := args, sig := sig, list := heap.brk }]
      h.map heap.brk (heap.brk + 1) (by simpa using hs.1) (by simpa using hs.2.1)
      (by simpa using hs.2.2) (Nat.le_succ _)
      (by
        intro y hy
        simp only [List.nil_append, List.mem_singleton] at hy
        subst hy
        exact ⟨le_refl _, Nat.lt_succ_self _, hb⟩)
      (by simp [addrs])
    simpa [Sound] using hg

theorem front_part_cons (b : Addr) (c : EmitCall) (cs : List EmitCall) :
    front_part b (c :: cs) =
      if c.priority ≠ 0
      then front_part (b + 1) cs ++ [{ args := c.args, sig := c.sig, list := b }]
      else front_part (b + 1) cs := by
  by_cases hp : c.priority ≠ 0
  · simp [front_part, tagged, List.filter_cons, hp]
  · simp [front_part, tagged, List.filter_cons, hp]

theorem back_part_cons (b : Addr) (c : EmitCall) (cs : List EmitCall) :
    back_part b (c :: cs) =
      if c.priority ≠ 0
      then back_part (b + 1) cs
      else { args := c.args, sig := c.sig, list := b } :: back_part (b + 1) cs := by
  by_cases hp : c.priority = 0
  · simp [back_part, tagged, List.filter_cons, hp]
  · simp [back_part, tagged, List.filter_cons, hp]

theorem parts_length (cs : List EmitCall) :
    ∀ b : Addr, (front_part b cs ++ back_part b cs).length = cs.length := by
  induction cs with
  | nil => intro b; rfl
  | cons c cs ih =>
    intro b
    have := ih (b + 1)
    rw [front_part_cons, back_part_cons]
    by_cases hp : c.priority ≠ 0
    · simp only [if_pos hp]
      simp only [List.length_append, List.length_cons, List.length_nil] at this ⊢
      omega
    · simp only [if_neg hp]
      simp only [List.length_append, List.length_cons] at this ⊢
      omega

theorem emit_all_spec (cs : List EmitCall) :
    ∀ (h : asyncevent_t) (heap : Heap), Sound h heap → lock_free h →
    (∀ c ∈ cs, sig_accepted c.sig ∧ (h.map c.sig).func ≠ 0) → cs.length ≤ heap.room →
    emit_all cs (some h) heap =
      (cs.map (fun _ => Status.returned 0),
        some { hlist := front_part heap.brk cs ++ h.hlist ++ back_part heap.brk cs,
               map := h.map },
        { brk := heap.brk + cs.length, room := heap.room - cs.length }) ∧
    Sound { hlist := front_part heap.brk cs ++ h.hlist ++ back_part heap.brk cs, map := h.map }
      { brk := heap.brk + cs.length, room := heap.room - cs.length } := by
  induction cs with
  | nil =>
    intro h heap hs _ _ _
    simpa [emit_all, front_part, back_part, tagged] using hs
  | cons c rest ih =>
    intro h heap hs hlock hb hroom
    have hlen : rest.length + 1 ≤ heap.room := by simpa using hroom
    have hroom1 : heap.room ≠ 0 := by omega
    have hc := hb c (by simp)
    have hs1 := emit_sound h heap c.priority c.sig c.args hs hc.2
    have h3 := ih { hlist := if c.priority ≠ 0
                      then { args := c.args, sig := c.sig, list := heap.brk } :: h.hlist
                      else h.hlist ++ [{ args := c.args, sig := c.sig, list := heap.brk }],
                    map := h.map } { brk := heap.brk + 1, room := heap.room - 1 } hs1 hlock
      (fun c2 h2 => hb c2 (by simp [h2])) (by simp only []; omega)
    have e1 : heap.brk + 1 + rest.length = heap.brk + (rest.length + 1) := by
      rw [Nat.add_assoc, Nat.add_comm 1]
    have e2 : heap.room - 1 - rest.length = heap.room - (rest.length + 1) := by omega
    have e3 : front_part (heap.brk + 1) rest ++
        (if c.priority ≠ 0
          then { args := c.args, sig := c.sig, list := heap.brk } :: h.hlist
          else h.hlist ++ [{ args := c.args, sig := c.sig, list := heap.brk }]) ++
        back_part (heap.brk + 1) rest =
        front_part heap.brk (c :: rest) ++ h.hlist ++ back_part heap.brk (c :: rest) := by
      rw [front_part_cons, back_part_cons]
      by_cases hp : c.priority ≠ 0
      · simp only [if_pos hp]; simp
      · simp only [if_neg hp]; simp
    simp only [e1, e2, e3] at h3
    refine ⟨?_, by simpa using h3.2⟩
    unfold emit_all
    rw [emit_ok h heap c.priority c.sig c.args hc.1 hc.2 hroom1 hlock]
    simp only [h3.1, List.map_cons, List.length_cons]

theorem emit_all_returns (cs : List EmitCall) :
    ∀ (h : asyncevent_t) (heap : Heap),
    (emit_all cs (some h) heap).1 = cs.map (fun _ => Status.returned 0) →
    (∀ c ∈ cs, sig_accepted c.sig ∧ (h.map c.sig).func ≠ 0) ∧ cs.length ≤ heap.room ∧
    (cs ≠ [] → lock_free h) := by
  induction cs with
  | nil =>
    intro h heap _
    exact ⟨by simp, by simp, fun hne => absurd rfl hne⟩
  | cons c rest ih =>
    intro h heap hret
    unfold emit_all at hret
    simp only [List.map_cons, List.cons.injEq] at hret
    obtain ⟨h1, h2⟩ := hret
    obtain ⟨ha, hb, hroom, hl⟩ := emit_zero_iff h heap c.priority c.sig c.args h1
    rw [emit_ok h heap c.priority c.sig c.args ha hb hroom hl] at h2
    obtain ⟨i1, i2, _⟩ := ih _ _ h2
    refine ⟨?_, ?_, fun _ => hl⟩
    · intro c2 hc2
      rcases List.mem_cons.mp hc2 with rfl | hc3
      · exact ⟨ha, hb⟩
      · exact i1 c2 hc3
    · simp only [List.length_cons]
      simp only [] at i2
      omega

/-- C17 (queue order as a function of the emit history). From an empty
queue, a sequence of emit calls with no drain in between is a sequence of
successful emits (every call returns 0) exactly when its signals are signals
of the table whose slots hold a callback, the allocator has room for the
nodes, and the mutex is free; and after such a sequence the queue is the
nodes emitted with a non-zero priority, most recent first, followed by the
nodes emitted with priority 0, in emission order; the next
`async_event_process` call makes its first invocations for these nodes in
that order, so priority events are dispatched last-emitted-first. -/
theorem queue_order_of_emit_history (prog : Program) (cs : List EmitCall) (h : asyncevent_t)
    (heap : Heap) (fuel : Nat)
    (hempty : h.hlist = []) (hfuel : cs.length ≤ fuel) :
    ((emit_all cs (some h) heap).1 = cs.map (fun _ => Status.returned 0) ↔
      (∀ c ∈ cs, in_table c.sig ∧ (h.map c.sig).func ≠ 0) ∧ cs.length ≤ heap.room ∧
      (cs ≠ [] → lock_free h)) ∧
    ((emit_all cs (some h) heap).1 = cs.map (fun _ => Status.returned 0) →
      (emit_all cs (some h) heap).2.1 =
        some { hlist := front_part heap.brk cs ++ back_part heap.brk cs, map := h.map } ∧
      (async_event_process prog fuel (emit_all cs (some h) heap).2.1
          (emit_all cs (some h) heap).2.2).calls.take cs.length =
        (front_part heap.brk cs ++ back_part heap.brk cs).map (call_of h.map)) := by
  have hlen := parts_length cs heap.brk
  have hs0 : Sound h heap := by
    unfold Sound
    rw [hempty]
    simp [addrs]
  by_cases hcs : cs = []
  · subst hcs
    obtain ⟨hl, mp⟩ := h
    simp only [] at hempty
    subst hempty
    simp [emit_all, front_part, back_part, tagged]
  refine ⟨⟨?_, ?_⟩, ?_⟩
  · intro hok
    obtain ⟨hb, hroom, hlk⟩ := emit_all_returns cs h heap hok
    refine ⟨?_, hroom, hlk⟩
    intro c hc
    refine ⟨?_, (hb c hc).2⟩
    have hacc := (hb c hc).1
    have hne : c.sig ≠ 1024 := by
      intro e
      have hbound := (hb c hc).2
      rw [e] at hbound
      exact hbound (hlk hcs)
    unfold sig_accepted at hacc
    unfold in_table MAP_SLOTS
    omega
  · rintro ⟨hb, hroom, hlk⟩
    rw [(emit_all_spec cs h heap hs0 (hlk hcs)
      (fun c hc => ⟨in_table_accepted c.sig (hb c hc).1, (hb c hc).2⟩) hroom).1]
  · intro hok
    obtain ⟨hb, hroom, hlk⟩ := emit_all_returns cs h heap hok
    have hlock : lock_free h := hlk hcs
    obtain ⟨e, hs⟩ := emit_all_spec cs h heap hs0 hlock hb hroom
    simp only [hempty, List.append_nil] at e hs
    rw [e]
    refine ⟨rfl, ?_⟩
    simp only []
    by_cases hq : front_part heap.brk cs ++ back_part heap.brk cs = []
    · rw [hq] at hlen
      have hc0 : cs.length = 0 := hlen.symm
      rw [hq, hc0]
      simp
    · obtain ⟨D, h2, _, d2, _, _, _, d6, _, _, _, _⟩ :=
        process_spec prog fuel
          { hlist := front_part heap.brk cs ++ back_part heap.brk cs, map := h.map }
          { brk := heap.brk + cs.length, room := heap.room - cs.length } hs hq hlock
      rw [d2]
      simp only [] at d6
      rw [hlen] at d6
      rw [← List.map_take, d6]
      rw [List.take_of_length_le (by rw [hlen]; exact hfuel)]

/-- Witness of C17: on the handle of main.c, MOVE with priority 1, PRESS
with priority 0, RELEASE with priority 1, CLICK with priority 0: the four
calls return 0 and the queue is RELEASE, MOVE, PRESS, CLICK. -/
theorem queue_order_of_emit_history_witness :
    (emit_all [{ priority := 1, sig := MOVE, args := 11 },
        { priority := 0, sig := PRESS, args := 12 },
        { priority := 1, sig := RELEASE, args := 13 },
        { priority := 0, sig := CLICK, args := 14 }] (some main_struct) main_heap).1 =
      [Status.returned 0, Status.returned 0, Status.returned 0, Status.returned 0] ∧
    (emit_all [{ priority := 1, sig := MOVE, args := 11 },
        { priority := 0, sig := PRESS, args := 12 },
        { priority := 1, sig := RELEASE, args := 13 },
        { priority := 0, sig := CLICK, args := 14 }] (some main_struct) main_heap).2.1 =
      some { hlist := [{ args := 13, sig := RELEASE, list := 1002 },
                       { args := 11, sig := MOVE, list := 1000 },
                       { args := 12, sig := PRESS, list := 1001 },
                       { args := 14, sig := CLICK, list := 1003 }],
             map := main_struct.map } :=
  ⟨(queue_order_of_emit_history main_prog
      [{ priority := 1, sig := MOVE, args := 11 }, { priority := 0, sig := PRESS, args := 12 },
       { priority := 1, sig := RELEASE, args := 13 }, { priority := 0, sig := CLICK, args := 14 }]
      main_struct main_heap 4 rfl (by decide)).1.mpr ⟨by decide, by decide, fun _ => by decide⟩,
   ((queue_order_of_emit_history main_prog
      [{ priority := 1, sig := MOVE, args := 11 }, { priority := 0, sig := PRESS, args := 12 },
       { priority := 1, sig := RELEASE, args := 13 }, { priority := 0, sig := CLICK, args := 14 }]
      main_struct main_heap 4 rfl (by decide)).2 (by decide)).1⟩

/-! ## Callbacks that emit their own signal -/

end AsyncEvent
